import Mathlib

/-!
# Verification of the Carcassonne engine and match coordinator (`dev_server.py`)

A shallow embedding of the game engine (tile geometry and rotation, placement
validation, connectivity analysis over a union-find, scoring), of the match
coordinator (turn submission, incremental and final scoring, the weighted
draw / burn loop) and of the lobby invite logic, together with theorems about
them.

Modelling conventions:
* Python dicts are association lists `List (κ × ν)`; assignment to a fresh key
  appends at the end and assignment to an existing key updates in place, which
  matches the insertion-order semantics of Python dicts (`upsertA`).
* The string cell keys `f"{x},{y}"` and node keys `f"{inst_id}:{feature_id}"`
  of the source are bijective encodings of pairs; we use the pairs directly.
* Python integers are `Int` (`%` on `Int` is Euclidean and agrees with
  Python's `%` for a positive modulus); timestamps are `Int` seconds.
* `random.randint(1, total)` outcomes are passed in explicitly as a list of
  drawn numbers, with a validity flag recording that every consumed number was
  within `[1, total]` at its draw.
-/

namespace Carcassonne

/-! ## Association-list primitives (Python `dict` semantics) -/

def lookupA [DecidableEq α] : List (α × β) → α → Option β
  | [], _ => none
  | (k, v) :: rest, k' => if k = k' then some v else lookupA rest k'

def upsertA [DecidableEq α] : List (α × β) → α → β → List (α × β)
  | [], k, v => [(k, v)]
  | (k0, v0) :: rest, k, v =>
      if k0 = k then (k, v) :: rest else (k0, v0) :: upsertA rest k v

def eraseA [DecidableEq α] : List (α × β) → α → List (α × β)
  | [], _ => []
  | (k0, v0) :: rest, k => if k0 = k then rest else (k0, v0) :: eraseA rest k

def getA [DecidableEq α] (l : List (α × β)) (k : α) (dflt : β) : β :=
  (lookupA l k).getD dflt

def memA [DecidableEq α] (l : List (α × β)) (k : α) : Bool :=
  (lookupA l k).isSome

/-- Python `set.add` on a list kept without duplicates (insertion order). -/
def addUnique [DecidableEq α] (l : List α) (x : α) : List α :=
  if x ∈ l then l else l ++ [x]

theorem lookupA_upsertA_self [DecidableEq α] (l : List (α × β)) (k : α) (v : β) :
    lookupA (upsertA l k v) k = some v := by
  induction l with
  | nil => simp [upsertA, lookupA]
  | cons hd tl ih =>
      obtain ⟨k0, v0⟩ := hd
      by_cases h : k0 = k
      · simp [upsertA, h, lookupA]
      · simp [upsertA, h, lookupA, ih]

theorem eraseA_upsertA [DecidableEq α] (l : List (α × β)) (k : α) (v : β)
    (h : lookupA l k = none) : eraseA (upsertA l k v) k = l := by
  induction l with
  | nil => simp [upsertA, eraseA]
  | cons hd tl ih =>
      obtain ⟨k0, v0⟩ := hd
      by_cases hk : k0 = k
      · simp [lookupA, hk] at h
      · simp [lookupA, hk] at h
        simp [upsertA, hk, eraseA, ih h]

/-! ## Ports, edges, tiles (`PORT_ROT_CW`, `EDGE_OPP`, `rot_port`, `rotate_tile`) -/

/-- The twelve directional labels of the source: four whole edges and eight
edge halves. -/
inductive Port where
  | N | E | S | W
  | Nw | Ne | En | Es | Se | Sw | Ws | Wn
deriving DecidableEq, Repr, Inhabited

/-- One clockwise 90-degree step: the `PORT_ROT_CW` table on the eight halves
and the `N→E→S→W` cycle of the `elif` chain in `rot_port`. -/
def rot_port_cw : Port → Port
  | .Nw => .En
  | .Ne => .Es
  | .En => .Se
  | .Es => .Sw
  | .Se => .Ws
  | .Sw => .Wn
  | .Ws => .Nw
  | .Wn => .Ne
  | .N => .E
  | .E => .S
  | .S => .W
  | .W => .N

/-- The `for _ in range(steps)` loop body of `rot_port`. -/
def rot_steps : Nat → Port → Port
  | 0, q => q
  | n + 1, q => rot_steps n (rot_port_cw q)

/-- `rot_port(port, rot_deg)`: `steps = ((rot_deg % 360) + 360) % 360 // 90`. -/
def rot_port (p : Port) (rot_deg : Int) : Port :=
  rot_steps ((((rot_deg % 360) + 360) % 360) / 90).toNat p

/-- `EDGE_OPP`; the source indexes it only with the four cardinal edges. -/
def edge_opp : Port → Port
  | .N => .S
  | .E => .W
  | .S => .N
  | .W => .E
  | p => p

structure EdgeInfo where
  primary : String
  feature : Option String
  halves : Option (List String)
deriving DecidableEq, Repr, Inhabited

structure Edges where
  n : EdgeInfo
  e : EdgeInfo
  s : EdgeInfo
  w : EdgeInfo
deriving DecidableEq, Repr, Inhabited

/-- `base["edges"][dir]`; the source only ever indexes the edge dict with a
cardinal direction, so the half-port cases are unreachable. -/
def Edges.get (es : Edges) : Port → EdgeInfo
  | .N => es.n
  | .E => es.e
  | .S => es.s
  | .W => es.w
  | _ => es.n

/-- A tile feature; `tags` is modelled by its only key ever read
(`tags.get("pennants", 0)`), and the purely visual `meeple_placement` anchor
(copied around, never computed with) is not carried. -/
structure Feature where
  fid : String
  ftype : String
  ports : List Port
  pennants : Int
deriving DecidableEq, Repr, Inhabited

structure TileDef where
  tid : String
  edges : Edges
  features : List Feature
  isStartTileType : Bool
deriving DecidableEq, Repr, Inhabited

/-- The dict returned by `rotate_tile` (`{"id": ..., "edges": ..., "features": ...}`). -/
structure OrientedTile where
  tid : String
  edges : Edges
  features : List Feature
deriving DecidableEq, Repr, Inhabited

/-- `rotate_tile(tile_id, rot_deg)` with the base-tile lookup factored out. -/
def rotate_tile (t : TileDef) (rot_deg : Int) : OrientedTile :=
  let inv := (360 - rot_deg) % 360
  { tid := t.tid
    edges :=
      { n := t.edges.get (rot_port .N inv)
        e := t.edges.get (rot_port .E inv)
        s := t.edges.get (rot_port .S inv)
        w := t.edges.get (rot_port .W inv) }
    features := t.features.map fun f =>
      { f with ports := f.ports.map fun p => rot_port p rot_deg } }

theorem rot_port_zero (p : Port) : rot_port p 0 = p := rfl

theorem rot_port_mod (p : Port) (r : Int) : rot_port p r = rot_port p (r % 360) := by
  unfold rot_port
  rw [Int.emod_emod_of_dvd r (dvd_refl 360)]

theorem rotate_tile_mod (t : TileDef) (r : Int) :
    rotate_tile t r = rotate_tile t (r % 360) := by
  unfold rotate_tile
  have hinv : (360 - r) % 360 = (360 - r % 360) % 360 := by
    conv_lhs => rw [Int.sub_emod]
    conv_rhs => rw [Int.sub_emod, Int.emod_emod_of_dvd r (dvd_refl 360)]
  rw [hinv]
  simp only [OrientedTile.mk.injEq, true_and]
  apply List.map_congr_left
  intro f _
  simp only [Feature.mk.injEq, true_and, and_true]
  apply List.map_congr_left
  intro p _
  exact rot_port_mod p r

theorem rotate_tile_zero_edges (t : TileDef) : (rotate_tile t 0).edges = t.edges := rfl

theorem rotate_tile_zero_features (t : TileDef) :
    (rotate_tile t 0).features = t.features := by
  have h : ∀ f : Feature,
      ({ f with ports := f.ports.map fun p => rot_port p 0 } : Feature) = f := by
    intro f
    simp [rot_port_zero]
  calc (rotate_tile t 0).features
      = t.features.map (fun f =>
          { f with ports := f.ports.map fun p => rot_port p 0 }) := rfl
    _ = t.features := by simp only [h, List.map_id']

theorem rot_port_four_quarter_turns (p : Port) :
    rot_port (rot_port (rot_port (rot_port p 90) 90) 90) 90 = p := by
  cases p <;> rfl

theorem rotate_tile_add_360 (t : TileDef) (r : Int) :
    rotate_tile t (r + 360) = rotate_tile t r := by
  have h : (r + 360) % 360 = r % 360 := by omega
  rw [rotate_tile_mod t (r + 360), rotate_tile_mod t r, h]

/-- C7: rotating a tile definition by 0 degrees is the identity on its
four edges and on every feature's ports; every port returns to itself
after four clockwise 90-degree steps; and rotation is 360-periodic:
`rotate(tile, r) = rotate(tile, r mod 360)` (equivalently, rotating by a
full extra turn changes nothing). -/
theorem c7_rotation_algebra :
    (∀ t : TileDef, (rotate_tile t 0).edges = t.edges ∧
        (rotate_tile t 0).features = t.features) ∧
    (∀ p : Port, rot_port (rot_port (rot_port (rot_port p 90) 90) 90) 90 = p) ∧
    (∀ (t : TileDef) (r : Int), rotate_tile t r = rotate_tile t (r % 360)) ∧
    (∀ (t : TileDef) (r : Int), rotate_tile t (r + 360) = rotate_tile t r) :=
  ⟨fun t => ⟨rotate_tile_zero_edges t, rotate_tile_zero_features t⟩,
   rot_port_four_quarter_turns, rotate_tile_mod, rotate_tile_add_360⟩

/-! ## Board, engine construction -/

structure Meeple where
  player : Int
  featureLocalId : String
deriving DecidableEq, Repr, Inhabited

structure TileInst where
  instId : Int
  tileId : String
  rotDeg : Int
  meeples : List Meeple
deriving DecidableEq, Repr, Inhabited

/-- The board dict, keyed by the `(x, y)` cell (the source's `f"{x},{y}"`). -/
abbrev Board := List ((Int × Int) × TileInst)

def BOARD_HALF_SPAN : Int := 12

/-- `CITY_EDGE_TO_ADJ_FIELD_PORTS.get(edge, [])`. -/
def city_edge_to_adj_field_ports : Port → List Port
  | .N => [.Nw, .Ne, .Wn, .En]
  | .E => [.En, .Es, .Ne, .Se]
  | .S => [.Sw, .Se, .Ws, .Es]
  | .W => [.Wn, .Ws, .Nw, .Sw]
  | _ => []

/-- `CarcassonneEngine._build_field_city_adjacency`. -/
def build_field_city_adjacency (tileById : List (String × TileDef)) :
    List (String × List (String × List String)) :=
  tileById.map fun (tile_id, tile) =>
    let fields := tile.features.filter fun f => f.ftype = "field"
    let cities := tile.features.filter fun f => f.ftype = "city"
    let tile_map := fields.foldl (fun acc field =>
      if field.ports.isEmpty then acc
      else
        let hits := cities.foldl (fun hs city =>
          let adjacent := city.ports.any fun edge =>
            (city_edge_to_adj_field_ports edge).any fun candidate =>
              candidate ∈ field.ports
          if adjacent then addUnique hs city.fid else hs) []
        if hits.isEmpty then acc else acc ++ [(field.fid, hits)]) []
    (tile_id, tile_map)

/-- Code-point lexicographic strict order on char lists (Python `<` on
strings), in a form the kernel evaluates. -/
def charsLt : List Char → List Char → Bool
  | [], [] => false
  | [], _ :: _ => true
  | _ :: _, [] => false
  | a :: as, b :: bs =>
      if a.toNat < b.toNat then true
      else if b.toNat < a.toNat then false
      else charsLt as bs

def strLe (a b : String) : Bool :=
  charsLt a.data b.data || decide (a.data = b.data)

/-- Python `sorted` on strings (stable, lexicographic by code point). -/
def sortStrings (l : List String) : List String :=
  l.insertionSort fun a b => strLe a b

/-- `CarcassonneEngine._pick_start_tile_id`. -/
def pick_start_tile_id (tiles : List TileDef) (counts : List (String × Int)) :
    Option String :=
  match tiles.find? fun t => t.isStartTileType && decide (0 < getA counts t.tid 0) with
  | some t => some t.tid
  | none =>
      (sortStrings ((counts.filter fun (_, cnt) => 0 < cnt).map Prod.fst)).head?

/-- The engine state built in `CarcassonneEngine.__init__` from the tile-set
payload (an opaque immutable input). -/
structure Engine where
  tileById : List (String × TileDef)
  counts : List (String × Int)
  startTileId : Option String
  fieldCityAdjacency : List (String × List (String × List String))
deriving Repr, Inhabited

def Engine.ofTileset (tiles : List TileDef) (tile_counts : List (String × Int)) :
    Engine :=
  let tileById := tiles.foldl (fun acc t => upsertA acc t.tid t) []
  { tileById := tileById
    counts := tile_counts
    startTileId := pick_start_tile_id tiles tile_counts
    fieldCityAdjacency := build_field_city_adjacency tileById }

/-- `self.tile_by_id[tile_id]`; the source raises `KeyError` on an unknown id,
which never happens on ids drawn from the supply — the default is junk for
other ids. -/
def Engine.tileOf (eng : Engine) (tile_id : String) : TileDef :=
  getA eng.tileById tile_id default

/-! ## Placement validator (`can_place_at`, `build_frontier`, `has_any_placement`) -/

def within_bounds (x y : Int) : Bool :=
  decide (|x| ≤ BOARD_HALF_SPAN) && decide (|y| ≤ BOARD_HALF_SPAN)

def portName : Port → String
  | .N => "N"
  | .E => "E"
  | .S => "S"
  | .W => "W"
  | .Nw => "Nw"
  | .Ne => "Ne"
  | .En => "En"
  | .Es => "Es"
  | .Se => "Se"
  | .Sw => "Sw"
  | .Ws => "Ws"
  | .Wn => "Wn"

/-- The neighbor list of `can_place_at`, in source order. -/
def neighbor_dirs : List (Int × Int × Port) :=
  [(0, -1, .N), (1, 0, .E), (0, 1, .S), (-1, 0, .W)]

/-- The neighbor loop of `can_place_at`: returns the accumulated `touches`
flag and the first edge-mismatch message, if any. -/
def scan_neighbors (eng : Engine) (board : Board) (tile : OrientedTile)
    (x y : Int) : List (Int × Int × Port) → Bool → Bool × Option String
  | [], touches => (touches, none)
  | (dx, dy, edge) :: rest, touches =>
      match lookupA board (x + dx, y + dy) with
      | none => scan_neighbors eng board tile x y rest touches
      | some n_inst =>
          let n_tile := rotate_tile (eng.tileOf n_inst.tileId) n_inst.rotDeg
          let a := (tile.edges.get edge).primary
          let b := (n_tile.edges.get (edge_opp edge)).primary
          if a ≠ b then
            (true, some ("Edge mismatch " ++ portName edge ++ ": " ++ a ++
              " vs neighbor " ++ portName (edge_opp edge) ++ ": " ++ b))
          else scan_neighbors eng board tile x y rest true

/-- `CarcassonneEngine.can_place_at`. -/
def can_place_at (eng : Engine) (board : Board) (tile_id : String)
    (rot_deg : Int) (x y : Int) : Bool × String :=
  if ¬ within_bounds x y then (false, "Out of board bounds.")
  else if (lookupA board (x, y)).isSome then (false, "Cell occupied.")
  else
    let has_any := ¬ board.isEmpty
    let tile := rotate_tile (eng.tileOf tile_id) rot_deg
    match scan_neighbors eng board tile x y neighbor_dirs false with
    | (_, some msg) => (false, msg)
    | (touches, none) =>
        if has_any ∧ ¬ touches then
          (false, "Tile must touch at least one placed tile.")
        else (true, "OK")

/-- `CarcassonneEngine.build_frontier` (a set in the source; the result is
only ever used for membership-style existential searches). -/
def build_frontier (board : Board) : List (Int × Int) :=
  if board.isEmpty then [(0, 0)]
  else
    board.foldl (fun acc (cell, _) =>
      let x := cell.1
      let y := cell.2
      [(x, y - 1), (x + 1, y), (x, y + 1), (x - 1, y)].foldl (fun acc2 nb =>
        if within_bounds nb.1 nb.2 && (lookupA board nb).isNone then
          addUnique acc2 nb
        else acc2) acc) []

def rotations : List Int := [0, 90, 180, 270]

/-- `CarcassonneEngine.has_any_placement`. -/
def has_any_placement (eng : Engine) (board : Board) (tile_id : String) : Bool :=
  (build_frontier board).any fun cell =>
    rotations.any fun rot => (can_place_at eng board tile_id rot cell.1 cell.2).1

theorem scan_neighbors_mismatch (eng : Engine) (board : Board)
    (tile : OrientedTile) (x y : Int) (dirs : List (Int × Int × Port))
    (t0 : Bool)
    (h : ∃ d ∈ dirs, ∃ n_inst, lookupA board (x + d.1, y + d.2.1) = some n_inst ∧
      (tile.edges.get d.2.2).primary ≠
        ((rotate_tile (eng.tileOf n_inst.tileId) n_inst.rotDeg).edges.get
          (edge_opp d.2.2)).primary) :
    (scan_neighbors eng board tile x y dirs t0).2.isSome := by
  induction dirs generalizing t0 with
  | nil => simp at h
  | cons d rest ih =>
      obtain ⟨dx, dy, edge⟩ := d
      obtain ⟨d', hd', n_inst, hlk, hne⟩ := h
      rcases List.mem_cons.mp hd' with heq | hmem
      · subst heq
        simp only [scan_neighbors]
        rw [hlk]
        simp [hne]
      · simp only [scan_neighbors]
        cases hcase : lookupA board (x + dx, y + dy) with
        | none => exact ih t0 ⟨d', hmem, n_inst, hlk, hne⟩
        | some m_inst =>
            by_cases hmis : (tile.edges.get edge).primary =
                ((rotate_tile (eng.tileOf m_inst.tileId) m_inst.rotDeg).edges.get
                  (edge_opp edge)).primary
            · simp only [hmis, ne_eq, not_true_eq_false, if_false]
              exact ih true ⟨d', hmem, n_inst, hlk, hne⟩
            · simp [hmis]

theorem scan_neighbors_no_neighbor (eng : Engine) (board : Board)
    (tile : OrientedTile) (x y : Int) (dirs : List (Int × Int × Port))
    (t0 : Bool)
    (h : ∀ d ∈ dirs, lookupA board (x + d.1, y + d.2.1) = none) :
    scan_neighbors eng board tile x y dirs t0 = (t0, none) := by
  induction dirs with
  | nil => rfl
  | cons d rest ih =>
      obtain ⟨dx, dy, edge⟩ := d
      simp only [scan_neighbors]
      rw [h (dx, dy, edge) (List.mem_cons_self _ _)]
      exact ih fun d' hd' => h d' (List.mem_cons_of_mem _ hd')

/-- C3: `can_place_at` runs its checks in order — out-of-bounds and occupied
cells are rejected with their dedicated reasons before anything else; on an
in-bounds empty cell, any occupied neighbor whose opposing edge terrain
differs from the oriented tile's edge terrain at that direction causes a
rejection; and a placement touching zero occupied neighbors is accepted
exactly when the board is empty. -/
theorem c3_can_place_checks (eng : Engine) (board : Board) (tile_id : String)
    (rot_deg x y : Int) :
    (¬ within_bounds x y →
      can_place_at eng board tile_id rot_deg x y = (false, "Out of board bounds.")) ∧
    (within_bounds x y → (lookupA board (x, y)).isSome →
      can_place_at eng board tile_id rot_deg x y = (false, "Cell occupied.")) ∧
    (within_bounds x y → lookupA board (x, y) = none →
      (∃ d ∈ neighbor_dirs, ∃ n_inst,
          lookupA board (x + d.1, y + d.2.1) = some n_inst ∧
          ((rotate_tile (eng.tileOf tile_id) rot_deg).edges.get d.2.2).primary ≠
            ((rotate_tile (eng.tileOf n_inst.tileId) n_inst.rotDeg).edges.get
              (edge_opp d.2.2)).primary) →
      (can_place_at eng board tile_id rot_deg x y).1 = false) ∧
    (within_bounds x y → lookupA board (x, y) = none →
      (∀ d ∈ neighbor_dirs, lookupA board (x + d.1, y + d.2.1) = none) →
      ((can_place_at eng board tile_id rot_deg x y).1 = true ↔ board = [])) := by
  refine ⟨?_, ?_, ?_, ?_⟩
  · intro hb
    simp [can_place_at, hb]
  · intro hb hocc
    simp [can_place_at, hb, hocc]
  · intro hb hemp hmis
    have hscan := scan_neighbors_mismatch eng board
      (rotate_tile (eng.tileOf tile_id) rot_deg) x y neighbor_dirs false hmis
    simp only [can_place_at, hb, not_true, ite_false, hemp, Option.isSome_none,
      Bool.false_eq_true, if_false, if_true, not_false_iff]
    cases hres : scan_neighbors eng board
        (rotate_tile (eng.tileOf tile_id) rot_deg) x y neighbor_dirs false with
    | mk touches msg =>
        cases msg with
        | none => rw [hres] at hscan; simp at hscan
        | some m => simp
  · intro hb hemp hnone
    have hscan := scan_neighbors_no_neighbor eng board
      (rotate_tile (eng.tileOf tile_id) rot_deg) x y neighbor_dirs false hnone
    simp only [can_place_at, hb, not_true, ite_false, hemp, Option.isSome_none,
      Bool.false_eq_true, if_false]
    rw [hscan]
    by_cases hany : board.isEmpty
    · simp [hany, List.isEmpty_iff.mp hany]
    · have : board ≠ [] := fun hc => hany (by simp [hc])
      simp [hany, this]

/-! ## Feature groups and scoring (`_score_feature`, `score_end_now_value`,
`stable_group_key`, `winners_of_group`) -/

/-- A node `f"{inst_id}:{feature_local_id}"` of the connectivity graph. -/
abbrev NodeKey := Int × String

def nodeLe (a b : NodeKey) : Bool :=
  decide (a.1 < b.1) || (decide (a.1 = b.1) && strLe a.2 b.2)

/-- Python `sorted` on node keys. -/
def sortNodes (l : List NodeKey) : List NodeKey :=
  l.insertionSort fun a b => nodeLe a b

/-- The stable identity `f"{type}|{'/'.join(sorted(nodes))}"` of a group,
as the pair (type, sorted member nodes). -/
abbrev GroupKey := String × List NodeKey

/-- One connected feature group as accumulated by `analyze_board`;
`meeples_by_player` is modelled by its two entries, and the sets of the
source are insertion-ordered duplicate-free lists. -/
structure Group where
  gid : NodeKey
  gtype : String
  nodes : List NodeKey
  tiles : List Int
  meeples1 : Int
  meeples2 : Int
  pennants : Int
  complete : Bool
  openPorts : List ((Int × Int) × Port)
  adjacentCount : Int
  adjCompletedCities : List GroupKey
  key : GroupKey
deriving DecidableEq, Repr, Inhabited

/-- `CarcassonneEngine._score_feature`. -/
def score_feature (group : Group) (completed : Bool) : Int :=
  if group.gtype = "road" then (group.tiles.length : Int)
  else if group.gtype = "city" then
    let tiles : Int := group.tiles.length
    let pennants := group.pennants
    if completed then 2 * tiles + 2 * pennants else tiles + pennants
  else if group.gtype = "cloister" then
    if completed then 9 else 1 + group.adjacentCount
  else if group.gtype = "field" then
    3 * (group.adjCompletedCities.length : Int)
  else 0

/-- `CarcassonneEngine.score_end_now_value`. -/
def score_end_now_value (group : Group) : Int :=
  if group.gtype = "city" then score_feature group group.complete
  else if group.gtype = "road" then score_feature group true
  else if group.gtype = "cloister" then score_feature group false
  else if group.gtype = "field" then score_feature group false
  else 0

/-- `CarcassonneEngine.stable_group_key`. -/
def stable_group_key (group : Group) : GroupKey :=
  (group.gtype, sortNodes group.nodes)

/-- `CarcassonneEngine.winners_of_group`. -/
def winners_of_group (group : Group) : List Int :=
  let m1 := group.meeples1
  let m2 := group.meeples2
  let mx := max m1 m2
  if mx ≤ 0 then []
  else (if m1 = mx then [1] else []) ++ (if m2 = mx then [2] else [])

/-- C4: per-group point values — roads score one point per member tile
regardless of the completion flag; cities score `2*tiles + 2*pennants`
complete and `tiles + pennants` otherwise; cloisters score 9 complete and
`1 + adjacency` otherwise (so a cloister with all 8 neighbors occupied
scores exactly 9 under either flag); fields score three points per distinct
completed adjacent city group. -/
theorem c4_score_values (g : Group) (completed : Bool) :
    (g.gtype = "road" → score_feature g completed = (g.tiles.length : Int)) ∧
    (g.gtype = "city" →
      score_feature g true = 2 * (g.tiles.length : Int) + 2 * g.pennants ∧
      score_feature g false = (g.tiles.length : Int) + g.pennants) ∧
    (g.gtype = "cloister" →
      score_feature g true = 9 ∧
      score_feature g false = 1 + g.adjacentCount ∧
      (g.adjacentCount = 8 → score_feature g completed = 9)) ∧
    (g.gtype = "field" →
      score_feature g completed = 3 * (g.adjCompletedCities.length : Int)) := by
  refine ⟨?_, ?_, ?_, ?_⟩
  · intro h
    simp [score_feature, h]
  · intro h
    have hr : g.gtype ≠ "road" := by rw [h]; decide
    constructor <;> simp [score_feature, h, hr]
  · intro h
    have hr : g.gtype ≠ "road" := by rw [h]; decide
    have hc : g.gtype ≠ "city" := by rw [h]; decide
    refine ⟨by simp [score_feature, h, hr, hc], by simp [score_feature, h, hr, hc], ?_⟩
    intro h8
    cases completed <;> simp [score_feature, h, hr, hc, h8]
  · intro h
    have hr : g.gtype ≠ "road" := by rw [h]; decide
    have hc : g.gtype ≠ "city" := by rw [h]; decide
    have hl : g.gtype ≠ "cloister" := by rw [h]; decide
    simp [score_feature, h, hr, hc, hl]

/-- Witness for C4 at a concrete group: an 8-neighbor cloister group scores 9. -/
theorem c4_score_values_witness :
    score_feature
      { gid := (1, "m"), gtype := "cloister", nodes := [(1, "m")], tiles := [1],
        meeples1 := 0, meeples2 := 0, pennants := 0, complete := true,
        openPorts := [], adjacentCount := 8, adjCompletedCities := [],
        key := ("cloister", [(1, "m")]) } false = 9 :=
  ((c4_score_values
    { gid := (1, "m"), gtype := "cloister", nodes := [(1, "m")], tiles := [1],
      meeples1 := 0, meeples2 := 0, pennants := 0, complete := true,
      openPorts := [], adjacentCount := 8, adjCompletedCities := [],
      key := ("cloister", [(1, "m")]) } false).2.2.1 rfl).2.2 rfl

/-! ## A small concrete tile-set used to evaluate the definitions

All edges share one terrain so edge matching always succeeds; the road
features of `tileA`/`tileB`/`tileC` are the interesting part. -/

def fEdge : EdgeInfo := { primary := "f", feature := none, halves := none }

def fEdges : Edges := { n := fEdge, e := fEdge, s := fEdge, w := fEdge }

def tileS0 : TileDef :=
  { tid := "S0", edges := fEdges, features := [], isStartTileType := true }

def tileA : TileDef :=
  { tid := "A", edges := fEdges,
    features := [{ fid := "r", ftype := "road", ports := [.E], pennants := 0 }],
    isStartTileType := false }

def tileB : TileDef :=
  { tid := "B", edges := fEdges,
    features := [{ fid := "r", ftype := "road", ports := [.W], pennants := 0 }],
    isStartTileType := false }

def tileC : TileDef :=
  { tid := "C", edges := fEdges,
    features := [{ fid := "r", ftype := "road", ports := [.E, .W, .S], pennants := 0 }],
    isStartTileType := false }

def ceEng : Engine :=
  Engine.ofTileset [tileS0, tileA, tileB, tileC]
    [("S0", 4), ("A", 1), ("B", 1), ("C", 1)]

/-- Witness for C3 at concrete inputs: an out-of-bounds cell is rejected with
the bounds reason, and on the empty board a placement touching no neighbor is
accepted. -/
theorem c3_can_place_checks_witness :
    can_place_at ceEng [] "A" 0 13 0 = (false, "Out of board bounds.") ∧
    (can_place_at ceEng [] "A" 0 0 0).1 = true := by
  constructor
  · exact (c3_can_place_checks ceEng [] "A" 0 13 0).1 (by decide)
  · exact ((c3_can_place_checks ceEng [] "A" 0 0 0).2.2.2 (by decide) (by decide)
      (by decide)).mpr rfl

/-! ## Union-find (`UnionFind`)

`find` is modelled as pure root computation: the source's path compression
rewrites internal parent links onto the root it returns but never changes
which root that is, so every observable result agrees. The fuel is the size
of the parent map, which bounds the depth of the parent forest. -/

structure UnionFind where
  parent : List (NodeKey × NodeKey)
  rank : List (NodeKey × Nat)
deriving DecidableEq, Repr, Inhabited

def UnionFind.add (uf : UnionFind) (item : NodeKey) : UnionFind :=
  if (lookupA uf.parent item).isSome then uf
  else { parent := upsertA uf.parent item item, rank := upsertA uf.rank item 0 }

def UnionFind.findAux (parent : List (NodeKey × NodeKey)) :
    Nat → NodeKey → NodeKey
  | 0, item => item
  | fuel + 1, item =>
      match lookupA parent item with
      | none => item
      | some p => if p = item then item else UnionFind.findAux parent fuel p

def UnionFind.find (uf : UnionFind) (item : NodeKey) : NodeKey :=
  UnionFind.findAux uf.parent uf.parent.length item

def UnionFind.union (uf : UnionFind) (a b : NodeKey) : UnionFind :=
  let uf1 := (uf.add a).add b
  let ra := uf1.find a
  let rb := uf1.find b
  if ra = rb then uf1
  else
    let rka := getA uf1.rank ra 0
    let rkb := getA uf1.rank rb 0
    let swapped := if rka < rkb then (rb, ra, rkb, rka) else (ra, rb, rka, rkb)
    let ra2 := swapped.1
    let rb2 := swapped.2.1
    let rka2 := swapped.2.2.1
    let rkb2 := swapped.2.2.2
    let uf2 := { uf1 with parent := upsertA uf1.parent rb2 ra2 }
    if rka2 = rkb2 then { uf2 with rank := upsertA uf2.rank ra2 (rka2 + 1) }
    else uf2

/-! ## Connectivity analyzer (`analyze_board`) -/

/-- The per-node metadata dict of `analyze_board` (the visual
`meeple_placement` entry is not carried, as for `Feature`). -/
structure NodeMeta where
  ntype : String
  ports : List Port
  pennants : Int
  instId : Int
  cellKey : Int × Int
  localId : String
deriving DecidableEq, Repr, Inhabited

/-- `per_tile_lookup[inst_id]`. -/
structure PerTile where
  roadEdge : List (Port × String)
  cityEdge : List (Port × String)
  fieldHalf : List (Port × String)
deriving DecidableEq, Repr, Inhabited

structure Analysis where
  uf : UnionFind
  nodeMeta : List (NodeKey × NodeMeta)
  groups : List (NodeKey × Group)
deriving DecidableEq, Repr, Inhabited

/-- The board with all meeple lists emptied: every pass of `analyze_board`
except the meeple-tally pass reads only this data. -/
def skeletonOf (board : Board) : Board :=
  board.map fun cellInst => (cellInst.1, { cellInst.2 with meeples := [] })

/-- First pass of `analyze_board`: register one union-find element per
(instance, feature) node, record node metadata, the per-tile port lookup
tables and the instance-to-cell table. -/
def analyze_pass_nodes (eng : Engine) (board : Board) :
    UnionFind × List (NodeKey × NodeMeta) × List (Int × PerTile) ×
      List (Int × (Int × Int)) :=
  board.foldl (fun acc cellInst =>
    let cell := cellInst.1
    let inst := cellInst.2
    let (uf, nodeMeta, perTile, instById) := acc
    let tile := rotate_tile (eng.tileOf inst.tileId) inst.rotDeg
    let inner := tile.features.foldl (fun acc2 feat =>
      let (uf2, nm2, pt) := acc2
      let nodeKey : NodeKey := (inst.instId, feat.fid)
      let nm3 := upsertA nm2 nodeKey
        { ntype := feat.ftype, ports := feat.ports, pennants := feat.pennants,
          instId := inst.instId, cellKey := cell, localId := feat.fid }
      let pt3 :=
        if feat.ftype = "road" then
          { pt with roadEdge := feat.ports.foldl (fun mLook p => upsertA mLook p feat.fid) pt.roadEdge }
        else if feat.ftype = "city" then
          { pt with cityEdge := feat.ports.foldl (fun mLook p => upsertA mLook p feat.fid) pt.cityEdge }
        else if feat.ftype = "field" then
          { pt with fieldHalf := feat.ports.foldl (fun mLook p => upsertA mLook p feat.fid) pt.fieldHalf }
        else pt
      (uf2.add nodeKey, nm3, pt3))
      (uf, nodeMeta, ({ roadEdge := [], cityEdge := [], fieldHalf := [] } : PerTile))
    (inner.1, inner.2.1, upsertA perTile inst.instId inner.2.2,
     upsertA instById inst.instId cell))
    (({ parent := [], rank := [] } : UnionFind), [], [], [])

/-- The neighbor specifications of the union pass: east and south neighbors
only, with the whole-edge labels and the field half-edge pairs. -/
def union_neighbor_specs (x y : Int) :
    List ((Int × Int) × Port × Port × List (Port × Port)) :=
  [((x + 1, y), .E, .W, [(.En, .Wn), (.Es, .Ws)]),
   ((x, y + 1), .S, .N, [(.Sw, .Nw), (.Se, .Ne)])]

/-- Second pass: union same-kind features across touching ports. -/
def analyze_pass_unions (board : Board) (perTile : List (Int × PerTile))
    (uf0 : UnionFind) : UnionFind :=
  board.foldl (fun uf cellInst =>
    let cell := cellInst.1
    let inst := cellInst.2
    let lookA := getA perTile inst.instId default
    (union_neighbor_specs cell.1 cell.2).foldl (fun uf2 spec =>
      let (ncell, edge_a, edge_b, half_pairs) := spec
      match lookupA board ncell with
      | none => uf2
      | some inst_b =>
          let lookB := getA perTile inst_b.instId default
          let uf3 :=
            match lookupA lookA.roadEdge edge_a, lookupA lookB.roadEdge edge_b with
            | some fa, some fb => uf2.union (inst.instId, fa) (inst_b.instId, fb)
            | _, _ => uf2
          let uf4 :=
            match lookupA lookA.cityEdge edge_a, lookupA lookB.cityEdge edge_b with
            | some fa, some fb => uf3.union (inst.instId, fa) (inst_b.instId, fb)
            | _, _ => uf3
          half_pairs.foldl (fun uf5 hp =>
            match lookupA lookA.fieldHalf hp.1, lookupA lookB.fieldHalf hp.2 with
            | some fa, some fb => uf5.union (inst.instId, fa) (inst_b.instId, fb)
            | _, _ => uf5) uf4) uf) uf0

def group_template (root : NodeKey) (meta : NodeMeta) : Group :=
  { gid := root, gtype := meta.ntype, nodes := [], tiles := [],
    meeples1 := 0, meeples2 := 0, pennants := 0, complete := false,
    openPorts := [], adjacentCount := 0, adjCompletedCities := [],
    key := ("", []) }

/-- Third pass: collapse the union-find into the group map. -/
def analyze_pass_groups (nodeMeta : List (NodeKey × NodeMeta))
    (uf : UnionFind) : List (NodeKey × Group) :=
  nodeMeta.foldl (fun groups nodeKeyMeta =>
    let (nodeKey, meta) := nodeKeyMeta
    let root := uf.find nodeKey
    let groups1 :=
      if (lookupA groups root).isSome then groups
      else upsertA groups root (group_template root meta)
    let g := getA groups1 root (group_template root meta)
    upsertA groups1 root
      { g with nodes := addUnique g.nodes nodeKey,
               tiles := addUnique g.tiles meta.instId,
               pennants := g.pennants +
                 (if meta.ntype = "city" then meta.pennants else 0) }) []

/-- Key-assignment pass (`g["key"] = self.stable_group_key(g)`). -/
def analyze_pass_keys (groups : List (NodeKey × Group)) :
    List (NodeKey × Group) :=
  groups.map fun rootGroup =>
    (rootGroup.1, { rootGroup.2 with key := stable_group_key rootGroup.2 })

/-- `CarcassonneEngine._edge_delta`; the source raises on a non-cardinal
label, which the analyzer only feeds with road/city edge ports. -/
def edge_delta : Port → Int × Int
  | .N => (0, -1)
  | .E => (1, 0)
  | .S => (0, 1)
  | .W => (-1, 0)
  | _ => (0, 0)

/-- The eight surrounding offsets of the cloister check, in source order. -/
def deltas8 : List (Int × Int) :=
  [(-1, -1), (0, -1), (1, -1), (-1, 0), (1, 0), (-1, 1), (0, 1), (1, 1)]

/-- Completion pass: open ports for roads/cities, adjacency for cloisters. -/
def analyze_pass_completion (board : Board)
    (nodeMeta : List (NodeKey × NodeMeta)) (perTile : List (Int × PerTile))
    (instById : List (Int × (Int × Int))) (groups : List (NodeKey × Group)) :
    List (NodeKey × Group) :=
  groups.map fun rootGroup =>
    let root := rootGroup.1
    let g := rootGroup.2
    if g.gtype = "road" ∨ g.gtype = "city" then
      let openPorts := g.nodes.foldl (fun op nodeKey =>
        match lookupA nodeMeta nodeKey with
        | none => op
        | some meta =>
            let x := meta.cellKey.1
            let y := meta.cellKey.2
            meta.ports.foldl (fun op2 edge =>
              let d := edge_delta edge
              match lookupA board (x + d.1, y + d.2) with
              | none => addUnique op2 (meta.cellKey, edge)
              | some n_inst =>
                  let n_lookup := getA perTile n_inst.instId default
                  let opp := edge_opp edge
                  if g.gtype = "road" then
                    if (lookupA n_lookup.roadEdge opp).isNone then
                      addUnique op2 (meta.cellKey, edge)
                    else op2
                  else
                    if (lookupA n_lookup.cityEdge opp).isNone then
                      addUnique op2 (meta.cellKey, edge)
                    else op2) op) []
      (root, { g with openPorts := openPorts, complete := openPorts.isEmpty })
    else if g.gtype = "cloister" then
      match g.tiles.head? with
      | none => (root, { g with adjacentCount := 0, complete := false })
      | some only_inst_id =>
          match lookupA instById only_inst_id with
          | none => (root, { g with adjacentCount := 0, complete := false })
          | some cell =>
              let cnt := deltas8.foldl (fun c d =>
                if (lookupA board (cell.1 + d.1, cell.2 + d.2)).isSome then c + 1
                else c) (0 : Int)
              (root, { g with adjacentCount := cnt, complete := decide (cnt = 8) })
    else (root, g)

/-- Field pass: record the keys of completed city groups each field touches,
via the engine's precomputed field-to-city adjacency table. -/
def analyze_pass_fields (eng : Engine) (board : Board)
    (nodeMeta : List (NodeKey × NodeMeta)) (uf : UnionFind)
    (groups : List (NodeKey × Group)) : List (NodeKey × Group) :=
  groups.map fun rootGroup =>
    let root := rootGroup.1
    let g := rootGroup.2
    if g.gtype = "field" then
      let adj := g.nodes.foldl (fun ac nodeKey =>
        match lookupA nodeMeta nodeKey with
        | none => ac
        | some meta =>
            match lookupA board meta.cellKey with
            | none => ac
            | some inst =>
                let tile_adj := getA eng.fieldCityAdjacency inst.tileId []
                let city_locals := getA tile_adj meta.localId []
                city_locals.foldl (fun ac2 city_local =>
                  let city_node : NodeKey := (meta.instId, city_local)
                  if (lookupA nodeMeta city_node).isNone then ac2
                  else
                    match lookupA groups (uf.find city_node) with
                    | some city_group =>
                        if city_group.gtype = "city" ∧ city_group.complete then
                          addUnique ac2 city_group.key
                        else ac2
                    | none => ac2) ac) g.adjCompletedCities
      (root, { g with adjCompletedCities := adj })
    else (root, g)

/-- Meeple-tally pass: resolve each board meeple to its group and count it.
In the source this pass runs right after the group-build pass; it writes only
`meeples_by_player`, which none of the key/completion/field passes read, so
running it last (as here, which makes every other pass a function of the
meeple-free skeleton alone) produces the same analysis. -/
def analyze_pass_meeples (board : Board)
    (nodeMeta : List (NodeKey × NodeMeta)) (uf : UnionFind)
    (groups : List (NodeKey × Group)) : List (NodeKey × Group) :=
  board.foldl (fun gs cellInst =>
    let inst := cellInst.2
    inst.meeples.foldl (fun gs2 meeple =>
      let nodeKey : NodeKey := (inst.instId, meeple.featureLocalId)
      if (lookupA nodeMeta nodeKey).isNone then gs2
      else
        match lookupA gs2 (uf.find nodeKey) with
        | none => gs2
        | some g =>
            if meeple.player = (1 : Int) then
              upsertA gs2 (uf.find nodeKey) { g with meeples1 := g.meeples1 + 1 }
            else if meeple.player = (2 : Int) then
              upsertA gs2 (uf.find nodeKey) { g with meeples2 := g.meeples2 + 1 }
            else gs2) gs) groups

/-- All passes of `analyze_board` other than the meeple tally; they read
only the meeple-free skeleton of the board. Returns the union-find, the
node-metadata table and the groups without their meeple counts. -/
def analyze_base (eng : Engine) (sk : Board) :
    UnionFind × List (NodeKey × NodeMeta) × List (NodeKey × Group) :=
  let pass1 := analyze_pass_nodes eng sk
  let uf0 := pass1.1
  let nodeMeta := pass1.2.1
  let perTile := pass1.2.2.1
  let instById := pass1.2.2.2
  let uf := analyze_pass_unions sk perTile uf0
  let groups0 := analyze_pass_groups nodeMeta uf
  let groups1 := analyze_pass_keys groups0
  let groups2 := analyze_pass_completion sk nodeMeta perTile instById groups1
  let groups3 := analyze_pass_fields eng sk nodeMeta uf groups2
  (uf, nodeMeta, groups3)

/-- `CarcassonneEngine.analyze_board`. -/
def analyze_board (eng : Engine) (board : Board) : Analysis :=
  let base := analyze_base eng (skeletonOf board)
  { uf := base.1, nodeMeta := base.2.1,
    groups := analyze_pass_meeples board base.2.1 base.1 base.2.2 }

/-! ## Match state and the match coordinator -/

structure TurnIntent where
  userId : String
  player : Int
  tileId : String
  x : Int
  y : Int
  rotDeg : Int
  meepleFeatureId : Option String
  locked : Bool
  valid : Bool
deriving DecidableEq, Repr, Inhabited

/-- The match dict created by `_new_match_locked`; the per-player dicts
(`players`, `score`, `meeples_available`, `next_tiles`) are modelled by
their two entries. -/
structure Match where
  mid : String
  createdAt : Int
  finishedAt : Option Int
  status : String
  player1 : String
  player2 : String
  board : Board
  instSeq : Int
  remaining : List (String × Int)
  score1 : Int
  score2 : Int
  scoredKeys : List GroupKey
  meeples1 : Int
  meeples2 : Int
  turnPlayer : Int
  turnIndex : Int
  currentTile : Option String
  burnedTurn : List String
  nextTile1 : Option String
  nextTile2 : Option String
  turnIntent : Option TurnIntent
  lastEvent : String
deriving DecidableEq, Repr, Inhabited

def Match.scoreOf (m : Match) (p : Int) : Int :=
  if p = 1 then m.score1 else if p = 2 then m.score2 else 0

def Match.addScore (m : Match) (p : Int) (pts : Int) : Match :=
  if p = 1 then { m with score1 := m.score1 + pts }
  else if p = 2 then { m with score2 := m.score2 + pts }
  else m

def Match.meeplesOf (m : Match) (p : Int) : Int :=
  if p = 1 then m.meeples1 else if p = 2 then m.meeples2 else 0

def Match.setMeeples (m : Match) (p : Int) (v : Int) : Match :=
  if p = 1 then { m with meeples1 := v }
  else if p = 2 then { m with meeples2 := v }
  else m

def Match.nextTileOf (m : Match) (p : Int) : Option String :=
  if p = 1 then m.nextTile1 else if p = 2 then m.nextTile2 else none

def Match.setNextTile (m : Match) (p : Int) (v : Option String) : Match :=
  if p = 1 then { m with nextTile1 := v }
  else if p = 2 then { m with nextTile2 := v }
  else m

/-- `match["user_to_player"]`; invite acceptance guarantees the two user ids
differ, so first-match lookup agrees with the source's dict. -/
def Match.userToPlayer (m : Match) (uid : String) : Option Int :=
  if m.player1 = uid then some 1 else if m.player2 = uid then some 2 else none

/-- One step of the incremental-scoring loop of
`_recompute_and_score_locked`, folded over the analyzer's groups; the state
is the match plus the `scored_now` set. -/
def score_group_step (acc : Match × List GroupKey) (rootGroup : NodeKey × Group) :
    Match × List GroupKey :=
  let m := acc.1
  let scored_now := acc.2
  let g := rootGroup.2
  if g.gtype = "field" ∨ ¬ g.complete then acc
  else if g.key ∈ m.scoredKeys then acc
  else
    let mp1 := g.meeples1
    let mp2 := g.meeples2
    let mx := max mp1 mp2
    if mx ≤ 0 then
      ({ m with scoredKeys := addUnique m.scoredKeys g.key }, scored_now)
    else
      let winners := (if mp1 = mx then [(1 : Int)] else []) ++
        (if mp2 = mx then [(2 : Int)] else [])
      let pts := score_feature g true
      let m2 := winners.foldl (fun mm w => mm.addScore w pts) m
      ({ m2 with scoredKeys := addUnique m2.scoredKeys g.key },
       addUnique scored_now g.key)

/-- The meeple-return pass of `_recompute_and_score_locked` for one board
instance: rebuilds its meeple list, returning meeples on freshly scored
non-field groups to the owners' pools (clamped at 7). -/
def return_meeples_step (analysis : Analysis) (scored_now : List GroupKey)
    (acc : Board × Match) (cellInst : (Int × Int) × TileInst) : Board × Match :=
  let cell := cellInst.1
  let inst := cellInst.2
  let inner := inst.meeples.foldl (fun (acc2 : List Meeple × Match) meeple =>
    let kept := acc2.1
    let mm := acc2.2
    let nodeKey : NodeKey := (inst.instId, meeple.featureLocalId)
    if (lookupA analysis.nodeMeta nodeKey).isNone then (kept ++ [meeple], mm)
    else
      match lookupA analysis.groups (analysis.uf.find nodeKey) with
      | none => (kept ++ [meeple], mm)
      | some group =>
          if group.gtype = "field" ∨ ¬ (group.key ∈ scored_now) then
            (kept ++ [meeple], mm)
          else if meeple.player = (1 : Int) then
            (kept, { mm with meeples1 := min 7 (mm.meeples1 + 1) })
          else if meeple.player = (2 : Int) then
            (kept, { mm with meeples2 := min 7 (mm.meeples2 + 1) })
          else (kept, mm)) ([], acc.2)
  (acc.1 ++ [(cell, { inst with meeples := inner.1 })], inner.2)

/-- `MultiplayerState._recompute_and_score_locked`. -/
def recompute_and_score (eng : Engine) (m : Match) (reaward_all : Bool) : Match :=
  let analysis := analyze_board eng m.board
  let m0 := if reaward_all then { m with scoredKeys := [], score1 := 0, score2 := 0 } else m
  let folded := analysis.groups.foldl score_group_step (m0, [])
  let m1 := folded.1
  let scored_now := folded.2
  if scored_now.isEmpty then m1
  else
    let swept := m1.board.foldl (return_meeples_step analysis scored_now) ([], m1)
    { swept.2 with board := swept.1 }

/-- `MultiplayerState._finalize_match_locked` restricted to the match record;
the chat summary and the detaching of the two users are lobby-level effects
on other records. -/
def finalize_match (eng : Engine) (now : Int) (m : Match) : Match :=
  if m.status ≠ "active" then m
  else
    let analysis := analyze_board eng m.board
    let m1 := analysis.groups.foldl (fun mm rootGroup =>
      let g := rootGroup.2
      let winners := winners_of_group g
      if winners.isEmpty then mm
      else if g.gtype ≠ "field" ∧ g.complete ∧ g.key ∈ mm.scoredKeys then mm
      else
        let pts := score_end_now_value g
        if pts ≤ 0 then mm
        else winners.foldl (fun m2 w => m2.addScore w pts) mm) m
    { m1 with
      status := "finished"
      finishedAt := some now
      currentTile := none
      burnedTurn := []
      turnIntent := none
      nextTile1 := none
      nextTile2 := none
      lastEvent := "Match finished." }

/-- `MultiplayerState._abort_match_locked` restricted to the match record. -/
def abort_match (now : Int) (m : Match) (reason : String) : Match :=
  if m.status = "active" then
    { m with
      status := "aborted"
      finishedAt := some now
      currentTile := none
      burnedTurn := []
      turnIntent := none
      nextTile1 := none
      nextTile2 := none
      lastEvent := reason }
  else m

/-! ## Weighted tile drawing and the burn loop -/

def total_remaining (remaining : List (String × Int)) : Int :=
  remaining.foldl (fun acc kv => acc + max 0 kv.2) 0

/-- The accumulation walk of `_pick_random_tile_locked` over the sorted ids. -/
def pick_walk (remaining : List (String × Int)) :
    List String → Int → Int → Option String
  | [], _, _ => none
  | tid :: rest, r, acc =>
      let cnt := max 0 (getA remaining tid 0)
      if cnt ≤ 0 then pick_walk remaining rest r acc
      else
        let acc2 := acc + cnt
        if r ≤ acc2 then some tid else pick_walk remaining rest r acc2

/-- `MultiplayerState._pick_random_tile_locked`, with the `randint(1, total)`
outcome `r` passed in. -/
def pick_random_tile (remaining : List (String × Int)) (r : Int) : Option String :=
  if total_remaining remaining ≤ 0 then none
  else pick_walk remaining (sortStrings (remaining.map Prod.fst)) r 0

/-- The stream of pending random numbers plus a flag recording that every
consumed number was a possible `randint(1, total)` outcome. -/
abbrev RandSt := List Int × Bool

def next_rand : List Int → Int × List Int
  | [] => (1, [])
  | r :: rs => (r, rs)

/-- One random draw against the current supply. -/
def draw_rand (remaining : List (String × Int)) (rst : RandSt) :
    Option String × RandSt :=
  let total := total_remaining remaining
  if total ≤ 0 then (none, rst)
  else
    let rr := next_rand rst.1
    (pick_random_tile remaining rr.1,
     (rr.2, rst.2 && decide (1 ≤ rr.1) && decide (rr.1 ≤ total)))

/-- `MultiplayerState._draw_reserved_tile_locked`. -/
def draw_reserved_tile (m : Match) (rst : RandSt) :
    Option String × Match × RandSt :=
  let drawn := draw_rand m.remaining rst
  match drawn.1 with
  | none => (none, m, drawn.2)
  | some tid =>
      (some tid,
       { m with remaining := upsertA m.remaining tid (max 0 (getA m.remaining tid 0 - 1)) },
       drawn.2)

/-- The per-player body of `_ensure_next_tiles_locked`. -/
def ensure_next_step (acc : Match × RandSt) (player : Int) : Match × RandSt :=
  let mm := acc.1
  let rr := acc.2
  if player = mm.turnPlayer then acc
  else if (mm.nextTileOf player).isSome then acc
  else
    let drawn := draw_reserved_tile mm rr
    match drawn.1 with
    | none => (drawn.2.1, drawn.2.2)
    | some tid => ((drawn.2.1).setNextTile player (some tid), drawn.2.2)

/-- `MultiplayerState._ensure_next_tiles_locked`. -/
def ensure_next_tiles (m : Match) (rst : RandSt) : Match × RandSt :=
  if m.status ≠ "active" then (m, rst)
  else [(1 : Int), 2].foldl ensure_next_step (m, rst)

theorem total_remaining_shift (l : List (String × Int)) (a : Int) :
    l.foldl (fun acc kv => acc + max 0 kv.2) a = a + total_remaining l := by
  induction l generalizing a with
  | nil => simp [total_remaining]
  | cons hd tl ih =>
      simp only [total_remaining, List.foldl_cons] at *
      rw [ih, ih (0 + max 0 hd.2)]
      ring

theorem pick_walk_pos (remaining : List (String × Int)) :
    ∀ (ids : List String) (r acc : Int) (tid : String),
      pick_walk remaining ids r acc = some tid → 0 < getA remaining tid 0 := by
  intro ids
  induction ids with
  | nil => intro r acc tid h; simp [pick_walk] at h
  | cons hd rest ih =>
      intro r acc tid h
      simp only [pick_walk] at h
      by_cases hc : max 0 (getA remaining hd 0) ≤ 0
      · rw [if_pos hc] at h
        exact ih r acc tid h
      · rw [if_neg hc] at h
        by_cases hr : r ≤ acc + max 0 (getA remaining hd 0)
        · rw [if_pos hr] at h
          cases h
          omega
        · rw [if_neg hr] at h
          exact ih r _ tid h

theorem total_remaining_upsert_decr (l : List (String × Int)) (tid : String)
    (h : 0 < getA l tid 0) :
    total_remaining (upsertA l tid (max 0 (getA l tid 0 - 1))) =
      total_remaining l - 1 := by
  induction l with
  | nil => simp [getA, lookupA] at h
  | cons hd tl ih =>
      obtain ⟨k, v⟩ := hd
      by_cases hk : k = tid
      · subst hk
        have hg : getA ((k, v) :: tl) k 0 = v := by simp [getA, lookupA]
        rw [hg] at h ⊢
        have hu : upsertA ((k, v) :: tl) k (max 0 (v - 1)) =
            (k, max 0 (v - 1)) :: tl := by simp [upsertA]
        rw [hu]
        simp only [total_remaining, List.foldl_cons]
        rw [total_remaining_shift, total_remaining_shift]
        omega
      · have hg : getA ((k, v) :: tl) tid 0 = getA tl tid 0 := by
          simp [getA, lookupA, hk]
        rw [hg] at h ⊢
        simp only [upsertA, if_neg hk]
        simp only [total_remaining, List.foldl_cons]
        rw [total_remaining_shift, total_remaining_shift, ih h]
        omega

theorem draw_rand_some (remaining : List (String × Int)) (rst : RandSt)
    (tid : String) (h : (draw_rand remaining rst).1 = some tid) :
    0 < getA remaining tid 0 ∧ 0 < total_remaining remaining := by
  simp only [draw_rand] at h
  by_cases ht : total_remaining remaining ≤ 0
  · rw [if_pos ht] at h
    cases h
  · rw [if_neg ht] at h
    simp only [pick_random_tile, if_neg ht] at h
    exact ⟨pick_walk_pos remaining _ _ _ _ h, by omega⟩

theorem draw_reserved_some (m : Match) (rst : RandSt) (tid : String)
    (m1 : Match) (rst1 : RandSt)
    (h : draw_reserved_tile m rst = (some tid, m1, rst1)) :
    total_remaining m1.remaining = total_remaining m.remaining - 1 ∧
    m1.nextTile1 = m.nextTile1 ∧ m1.nextTile2 = m.nextTile2 ∧
    m1.turnPlayer = m.turnPlayer ∧ 0 < total_remaining m.remaining := by
  simp only [draw_reserved_tile] at h
  split at h
  · simp at h
  · rename_i t heq
    simp only [Prod.mk.injEq] at h
    obtain ⟨ht, hm, hr⟩ := h
    obtain ⟨hpos, htot⟩ := draw_rand_some m.remaining rst t heq
    cases ht
    subst hm
    exact ⟨total_remaining_upsert_decr m.remaining tid hpos, rfl, rfl, rfl, htot⟩

theorem nextTileOf_setNextTile_none (m : Match) (p : Int) :
    (m.setNextTile p none).nextTileOf p = none := by
  simp only [Match.setNextTile, Match.nextTileOf]
  by_cases h1 : p = 1
  · simp [h1]
  · by_cases h2 : p = 2 <;> simp [h1, h2]

theorem setNextTile_fields (m : Match) (p : Int) (v : Option String) :
    (m.setNextTile p v).remaining = m.remaining ∧
    (m.setNextTile p v).turnPlayer = m.turnPlayer := by
  simp only [Match.setNextTile]
  by_cases h1 : p = 1
  · simp [h1]
  · by_cases h2 : p = 2 <;> simp [h1, h2]

/-- Termination measure of the burn loop: total physical tiles left in the
supply plus one for a pre-drawn tile waiting for the active player. -/
def draw_measure (m : Match) : Nat :=
  (total_remaining m.remaining).toNat +
    (if (m.nextTileOf m.turnPlayer).isSome then 1 else 0)

/-- The `while True` body of `_draw_placeable_tile_for_match_locked`:
take the active player's pre-drawn tile or draw one; exhaustion finalizes
the match, an unplaceable tile is burned and the loop repeats, a placeable
tile becomes current (and idle players are topped up). The loop is driven
by explicit fuel so that it evaluates by reduction; `draw_measure` strictly
decreases on every iteration, so the wrapper's fuel `draw_measure m + 1`
never runs out (`draw_fuel_sufficient` below). -/
def draw_placeable_tile_aux (eng : Engine) (now : Int) :
    Nat → Match → RandSt → List String → Match × RandSt
  | 0, m, rst, _ => (m, rst)
  | fuel + 1, m, rst, burned =>
      match m.nextTileOf m.turnPlayer with
      | some tid =>
          let m1 := m.setNextTile m.turnPlayer none
          if has_any_placement eng m1.board tid then
            ensure_next_tiles
              { m1 with
                currentTile := some tid
                burnedTurn := burned
                turnIntent := none } rst
          else draw_placeable_tile_aux eng now fuel m1 rst (burned ++ [tid])
      | none =>
          match draw_reserved_tile m rst with
          | (none, m1, rst1) =>
              (finalize_match eng now { m1 with currentTile := none, burnedTurn := burned },
               rst1)
          | (some tid, m1, rst1) =>
              if has_any_placement eng m1.board tid then
                ensure_next_tiles
                  { m1 with
                    currentTile := some tid
                    burnedTurn := burned
                    turnIntent := none } rst1
              else draw_placeable_tile_aux eng now fuel m1 rst1 (burned ++ [tid])

/-- `MultiplayerState._draw_placeable_tile_for_match_locked`. -/
def draw_placeable_tile_for_match (eng : Engine) (now : Int) (m : Match)
    (rst : RandSt) : Match × RandSt :=
  draw_placeable_tile_aux eng now (draw_measure m + 1) m rst []

/-- The `feature_by_id` dict built in `match_submit_turn` / `match_intent`
from the oriented tile. -/
def feature_by_id_of (eng : Engine) (tile_id : String) (rrot : Int) :
    List (String × Feature) :=
  (rotate_tile (eng.tileOf tile_id) rrot).features.foldl
    (fun acc f => upsertA acc f.fid f) []

/-! ## Turn submission (`match_submit_turn`) -/

/-- Python `str(x).strip()` on a string payload. -/
def strip_py (s : String) : String :=
  String.mk (((s.data.dropWhile Char.isWhitespace).reverse.dropWhile
    Char.isWhitespace).reverse)

/-- The `selected_meeple_feature` normalization of `match_submit_turn` and
`match_intent`. -/
def selected_meeple_of (mf : Option String) : Option String :=
  match mf with
  | none => none
  | some s =>
      let fid := strip_py s
      if fid = "" then none else some fid

def format_place_event (userName tile_id : String) (x y rrot : Int)
    (mf : Option String) : String :=
  userName ++ " placed " ++ tile_id ++ " at (" ++ toString x ++ "," ++
    toString y ++ ") r" ++ toString rrot ++
    (match mf with
     | some fid => " + meeple " ++ fid ++ "."
     | none => ".")

/-- The success tail of `match_submit_turn`: incremental scoring, turn
hand-over, transient-field reset and the next tile-offering cycle. -/
def submit_finish (eng : Engine) (now : Int) (m2 : Match) (player : Int)
    (userName tile_id : String) (x y rrot : Int) (mf : Option String)
    (rst : RandSt) : Match × Option String × RandSt :=
  let m3 := recompute_and_score eng m2 false
  let next_player : Int := if player = 2 then 1 else 2
  let m4 := { m3 with
    turnPlayer := next_player
    turnIndex := m3.turnIndex + 1
    currentTile := none
    burnedTurn := []
    turnIntent := none
    lastEvent := format_place_event userName tile_id x y rrot mf }
  let drawn := draw_placeable_tile_for_match eng now m4 rst
  (drawn.1, none, drawn.2)

/-- Appending the validated meeple to the tentatively placed instance and
decrementing the owner's pool, then the success tail. -/
def plant_meeple_and_finish (eng : Engine) (now : Int) (m1 : Match)
    (player : Int) (userName tile_id : String) (cell : Int × Int)
    (inst_id : Int) (x y rrot : Int) (fid : String) (rst : RandSt) :
    Match × Option String × RandSt :=
  let inst2 : TileInst :=
    { instId := inst_id, tileId := tile_id, rotDeg := rrot,
      meeples := [{ player := player, featureLocalId := fid }] }
  let m2a := { m1 with board := upsertA m1.board cell inst2 }
  let m2 := m2a.setMeeples player (max 0 (m2a.meeplesOf player - 1))
  submit_finish eng now m2 player userName tile_id x y rrot (some fid) rst

/-- `MultiplayerState.match_submit_turn` from the match-status check on
(authentication and match lookup are lobby-level); the `(m', err, rst')`
result carries the possibly mutated match, the error string of a failed
call, and the remaining random stream. -/
def match_submit_turn_core (eng : Engine) (now : Int) (m : Match)
    (player : Int) (userName : String) (x y rot_deg : Int) (mf : Option String)
    (rst : RandSt) : Match × Option String × RandSt :=
  if m.status ≠ "active" then (m, some "Match is not active.", rst)
  else if player ≠ m.turnPlayer then (m, some "It is not your turn.", rst)
  else
    match m.currentTile with
    | none => (m, some "No tile is currently assigned for this turn.", rst)
    | some tile_id =>
        let rrot := ((rot_deg % 360) + 360) % 360
        if ¬ (rrot ∈ rotations) then
          (m, some "Rotation must be one of 0, 90, 180, 270.", rst)
        else
          let checked := can_place_at eng m.board tile_id rrot x y
          if ¬ checked.1 then (m, some checked.2, rst)
          else
            let cell : Int × Int := (x, y)
            let inst_id := m.instSeq
            let inst : TileInst :=
              { instId := inst_id, tileId := tile_id, rotDeg := rrot, meeples := [] }
            let m1 := { m with board := upsertA m.board cell inst, instSeq := inst_id + 1 }
            let rollback := fun (msg : String) =>
              ({ m1 with board := eraseA m1.board cell, instSeq := inst_id },
               some msg, rst)
            match selected_meeple_of mf with
            | none => submit_finish eng now m1 player userName tile_id x y rrot none rst
            | some fid =>
                if m1.meeplesOf player ≤ 0 then
                  rollback "No meeples remaining for this player."
                else
                  let feature_by_id := feature_by_id_of eng tile_id rrot
                  match lookupA feature_by_id fid with
                  | none => rollback "Meeple feature id is invalid for the placed tile."
                  | some feat =>
                      if ¬ (feat.ftype = "road" ∨ feat.ftype = "city" ∨
                            feat.ftype = "field" ∨ feat.ftype = "cloister") then
                        rollback "Meeple cannot be placed on that feature type."
                      else
                        let analysis := analyze_board eng m1.board
                        let node_key : NodeKey := (inst_id, fid)
                        if (lookupA analysis.nodeMeta node_key).isNone then
                          rollback "Failed to analyze selected feature."
                        else
                          match lookupA analysis.groups (analysis.uf.find node_key) with
                          | some group =>
                              if 0 < group.meeples1 + group.meeples2 then
                                rollback "Meeple rule: that connected feature is already occupied."
                              else
                                plant_meeple_and_finish eng now m1 player userName
                                  tile_id cell inst_id x y rrot fid rst
                          | none =>
                              plant_meeple_and_finish eng now m1 player userName
                                tile_id cell inst_id x y rrot fid rst

/-! ## Turn intent (`match_intent`) -/

def set_turn_intent (m : Match) (userId : String) (player : Option Int)
    (tile_id : String) (x y rrot : Int) (sel : Option String)
    (locked ok : Bool) : Match × Option String :=
  let ti : TurnIntent :=
    { userId := userId, player := player.getD 0, tileId := tile_id,
      x := x, y := y, rotDeg := rrot, meepleFeatureId := sel,
      locked := locked, valid := ok }
  ({ m with turnIntent := some ti }, none)

/-- `MultiplayerState.match_intent` from the `clear` handling on. -/
def match_intent_core (eng : Engine) (m : Match) (userId : String)
    (x y rot_deg : Int) (mf : Option String) (clear locked : Bool) :
    Match × Option String :=
  let player := m.userToPlayer userId
  if clear then
    (match m.turnIntent with
     | none => ({ m with turnIntent := none }, none)
     | some ti =>
         if ti.userId = userId then ({ m with turnIntent := none }, none)
         else (m, none))
  else if m.status ≠ "active" then (m, some "Match is not active.")
  else if player ≠ some m.turnPlayer then
    (m, some "Only the active player can publish placement intent.")
  else
    match m.currentTile with
    | none => (m, some "No tile is currently assigned for this turn.")
    | some tile_id =>
        let rrot := ((rot_deg % 360) + 360) % 360
        if ¬ (rrot ∈ rotations) then
          (m, some "Rotation must be one of 0, 90, 180, 270.")
        else if (lookupA m.board (x, y)).isSome then (m, some "Cell occupied.")
        else
          let checked := can_place_at eng m.board tile_id rrot x y
          if locked ∧ ¬ checked.1 then (m, some checked.2)
          else
            match selected_meeple_of mf with
            | none => set_turn_intent m userId player tile_id x y rrot none locked checked.1
            | some fid =>
                let feature_by_id := feature_by_id_of eng tile_id rrot
                match lookupA feature_by_id fid with
                | none => (m, some "Meeple feature id is invalid for the placed tile.")
                | some feat =>
                    if ¬ (feat.ftype = "road" ∨ feat.ftype = "city" ∨
                          feat.ftype = "field" ∨ feat.ftype = "cloister") then
                      (m, some "Meeple cannot be placed on that feature type.")
                    else
                      set_turn_intent m userId player tile_id x y rrot (some fid)
                        locked checked.1

/-! ## Match creation (`_new_match_locked`) -/

/-- The fresh match dict of `_new_match_locked`: start tile placed at the
origin with instance id 1, its supply count decremented, both pools at 7. -/
def initial_match_record (eng : Engine) (now : Int) (mid : String)
    (user_a_id user_b_id : String) (turn_choice : Int)
    (start_tile_id : String) : Match :=
  { mid := mid, createdAt := now, finishedAt := none, status := "active",
    player1 := user_a_id, player2 := user_b_id,
    board := [((0, 0), { instId := 1, tileId := start_tile_id, rotDeg := 0, meeples := [] })],
    instSeq := 2,
    remaining := upsertA eng.counts start_tile_id (max 0 (getA eng.counts start_tile_id 0 - 1)),
    score1 := 0, score2 := 0,
    scoredKeys := [], meeples1 := 7, meeples2 := 7,
    turnPlayer := turn_choice, turnIndex := 1, currentTile := none,
    burnedTurn := [], nextTile1 := none, nextTile2 := none,
    turnIntent := none, lastEvent := "Match started." }

/-- `MultiplayerState._new_match_locked` restricted to the match record
(registration in the lobby dicts is lobby-level); `turn_choice` is the
`random.choice([1, 2])` outcome and `none` models the `RuntimeError` raised
when the tile-set has no start tile. -/
def new_match (eng : Engine) (now : Int) (mid : String)
    (user_a_id user_b_id : String) (turn_choice : Int) (rst : RandSt) :
    Option (Match × RandSt) :=
  match eng.startTileId with
  | none => none
  | some start_tile_id =>
      let m := initial_match_record eng now mid user_a_id user_b_id turn_choice
        start_tile_id
      let ensured := ensure_next_tiles m rst
      some (draw_placeable_tile_for_match eng now ensured.1 ensured.2)

/-! ## Reachable match states

The externally triggered operations that touch a match record are turn
submission, resignation and intent publication; `_recompute_and_score_locked`,
`_finalize_match_locked` and the draw cycle only run inside them (or inside
match creation). Randomness is modelled by quantifying over the drawn-number
stream, with the validity flag restricting it to outcomes `randint` can
produce. -/

inductive MatchStep (eng : Engine) : Match → Match → Prop where
  | submit (m : Match) (now player x y rot_deg : Int) (mf : Option String)
      (userName : String) (rs : List Int)
      (hvalid : (match_submit_turn_core eng now m player userName x y rot_deg mf
        (rs, true)).2.2.2 = true) :
      MatchStep eng m
        (match_submit_turn_core eng now m player userName x y rot_deg mf (rs, true)).1
  | resign (m : Match) (now : Int) (reason : String) :
      MatchStep eng m (abort_match now m reason)
  | intent (m : Match) (userId : String) (x y rot_deg : Int) (mf : Option String)
      (clear locked : Bool) :
      MatchStep eng m (match_intent_core eng m userId x y rot_deg mf clear locked).1

inductive MatchReach (eng : Engine) (m0 : Match) : Match → Prop where
  | refl : MatchReach eng m0 m0
  | step (m m' : Match) : MatchReach eng m0 m → MatchStep eng m m' →
      MatchReach eng m0 m'

/-- `m` is the match record `_new_match_locked` hands back, for some
`random.choice` and `randint` outcomes. -/
def IsInitialMatch (eng : Engine) (m : Match) : Prop :=
  ∃ (now : Int) (mid user_a user_b : String) (turn_choice : Int)
    (rs : List Int) (rst2 : RandSt),
    (turn_choice = 1 ∨ turn_choice = 2) ∧
    new_match eng now mid user_a user_b turn_choice (rs, true) = some (m, rst2) ∧
    rst2.2 = true

/-! ## C2: the at-most-one-meeple-per-group invariant

The counterexample match: two players each legally claim a separate open
road stub, then a connecting road tile placed without a meeple merges the
two groups into one group carrying two meeples. -/

def ceM0 : Match := ((new_match ceEng 0 "m1" "u1" "u2" 1 ([4, 4], true)).getD default).1

def ceM1 : Match :=
  (match_submit_turn_core ceEng 0 ceM0 1 "P1" (-1) 0 0 none ([1], true)).1

def ceM2 : Match :=
  (match_submit_turn_core ceEng 0 ceM1 2 "P2" 1 0 0 none ([1], true)).1

def ceM3 : Match :=
  (match_submit_turn_core ceEng 0 ceM2 1 "P1" (-1) 1 0 (some "r") ([1], true)).1

def ceM4 : Match :=
  (match_submit_turn_core ceEng 0 ceM3 2 "P2" 1 1 0 (some "r") ([1], true)).1

def ceM5 : Match :=
  (match_submit_turn_core ceEng 0 ceM4 1 "P1" 0 1 0 none ([], true)).1

set_option maxHeartbeats 2000000 in
/-- Counterexample to C2 as stated: `ceM5` is reachable from a freshly
created match by five legal `submitTurn` calls, yet its board's analysis
contains a (road) group holding two meeples — one from each player — because
the fifth tile merged two singly-claimed groups without placing a meeple. -/
theorem c2_counterexample_merged_group_two_meeples :
    IsInitialMatch ceEng ceM0 ∧ MatchReach ceEng ceM0 ceM5 ∧
    ¬ (∀ p ∈ (analyze_board ceEng ceM5.board).groups,
        p.2.meeples1 + p.2.meeples2 ≤ 1) := by
  refine ⟨⟨0, "m1", "u1", "u2", 1, [4, 4], ([], true), Or.inl rfl, ?_, rfl⟩, ?_, ?_⟩
  · decide
  · exact .step ceM4 ceM5
      (.step ceM3 ceM4
        (.step ceM2 ceM3
          (.step ceM1 ceM2
            (.step ceM0 ceM1 .refl
              (.submit ceM0 0 1 (-1) 0 0 none "P1" [1] (by decide)))
            (.submit ceM1 0 2 1 0 0 none "P2" [1] (by decide)))
          (.submit ceM2 0 1 (-1) 1 0 (some "r") "P1" [1] (by decide)))
        (.submit ceM3 0 2 1 1 0 (some "r") "P2" [1] (by decide)))
      (.submit ceM4 0 1 0 1 0 none "P1" [] (by decide))
  · decide

theorem can_place_ok_cell_empty (eng : Engine) (board : Board)
    (tile_id : String) (rot x y : Int)
    (h : (can_place_at eng board tile_id rot x y).1 = true) :
    lookupA board (x, y) = none := by
  by_cases hb : within_bounds x y
  · cases hlk : lookupA board (x, y) with
    | none => rfl
    | some i =>
        exfalso
        simp [can_place_at, hb, hlk] at h
  · exfalso
    simp [can_place_at, hb] at h

theorem submit_rollback_state (m : Match) (cell : Int × Int) (inst : TileInst)
    (h : lookupA m.board cell = none) :
    ({ m with
       board := eraseA (upsertA m.board cell inst) cell
       instSeq := m.instSeq } : Match) = m := by
  rw [eraseA_upsertA _ _ _ h]

/-- C1: a `submitTurn` by the active player whose tile placement passes the
validator but whose meeple request fails any later meeple check (empty pool,
unknown feature id on the oriented tile, non-meepleable feature type, a
feature the analyzer cannot resolve, or a connected group already holding a
meeple) returns an error and leaves the match state exactly as before the
call: the tentative instance is removed, the sequence counter restored, and
no score, pool, scored-key set, turn pointer or turn index changes. -/
theorem c1_submit_meeple_failure_rolls_back
    (eng : Engine) (now : Int) (m : Match) (player : Int) (userName : String)
    (x y rot_deg : Int) (mf : Option String) (rst : RandSt)
    (tile_id fid : String)
    (hstatus : m.status = "active")
    (hturn : player = m.turnPlayer)
    (htile : m.currentTile = some tile_id)
    (hrot : ((rot_deg % 360) + 360) % 360 ∈ rotations)
    (hok : (can_place_at eng m.board tile_id (((rot_deg % 360) + 360) % 360) x y).1 = true)
    (hsel : selected_meeple_of mf = some fid)
    (hfail :
      m.meeplesOf player ≤ 0 ∨
      lookupA (feature_by_id_of eng tile_id (((rot_deg % 360) + 360) % 360)) fid = none ∨
      (∃ feat, lookupA (feature_by_id_of eng tile_id (((rot_deg % 360) + 360) % 360)) fid
          = some feat ∧
        ¬ (feat.ftype = "road" ∨ feat.ftype = "city" ∨ feat.ftype = "field" ∨
           feat.ftype = "cloister")) ∨
      (lookupA (analyze_board eng (upsertA m.board (x, y)
          { instId := m.instSeq, tileId := tile_id,
            rotDeg := ((rot_deg % 360) + 360) % 360, meeples := [] })).nodeMeta
        (m.instSeq, fid)).isNone = true ∨
      (∃ g, lookupA (analyze_board eng (upsertA m.board (x, y)
          { instId := m.instSeq, tileId := tile_id,
            rotDeg := ((rot_deg % 360) + 360) % 360, meeples := [] })).groups
          ((analyze_board eng (upsertA m.board (x, y)
            { instId := m.instSeq, tileId := tile_id,
              rotDeg := ((rot_deg % 360) + 360) % 360, meeples := [] })).uf.find
            (m.instSeq, fid)) = some g ∧
        0 < g.meeples1 + g.meeples2)) :
    ∃ msg, match_submit_turn_core eng now m player userName x y rot_deg mf rst
      = (m, some msg, rst) := by
  have hempty := can_place_ok_cell_empty eng m.board tile_id
    (((rot_deg % 360) + 360) % 360) x y hok
  have hroll : ∀ (inst : TileInst),
      ({ m with
         board := eraseA (upsertA m.board (x, y) inst) (x, y)
         instSeq := m.instSeq
         currentTile := some tile_id } : Match) = m := by
    intro inst
    rw [eraseA_upsertA _ _ _ hempty, ← htile]
  unfold match_submit_turn_core
  rw [if_neg (by simp [hstatus]), if_neg (by simp [hturn]), htile]
  simp only []
  rw [if_neg (not_not_intro hrot), if_neg (not_not_intro hok), hsel]
  simp only []
  split
  · exact ⟨"No meeples remaining for this player.",
      by rw [Prod.mk.injEq]; exact ⟨hroll _, rfl⟩⟩
  · rename_i hpool
    split
    · rename_i hlf
      rcases hfail with hf | hf | hf | hf | hf
      · exact absurd hf (by simpa [Match.meeplesOf] using hpool)
      · exact ⟨"Meeple feature id is invalid for the placed tile.",
          by rw [Prod.mk.injEq]; exact ⟨hroll _, rfl⟩⟩
      · exact ⟨"Meeple feature id is invalid for the placed tile.",
          by rw [Prod.mk.injEq]; exact ⟨hroll _, rfl⟩⟩
      · exact ⟨"Meeple feature id is invalid for the placed tile.",
          by rw [Prod.mk.injEq]; exact ⟨hroll _, rfl⟩⟩
      · exact ⟨"Meeple feature id is invalid for the placed tile.",
          by rw [Prod.mk.injEq]; exact ⟨hroll _, rfl⟩⟩
    · rename_i feat hlf
      split
      · exact ⟨"Meeple cannot be placed on that feature type.",
          by rw [Prod.mk.injEq]; exact ⟨hroll _, rfl⟩⟩
      · rename_i htype
        split
        · exact ⟨"Failed to analyze selected feature.",
            by rw [Prod.mk.injEq]; exact ⟨hroll _, rfl⟩⟩
        · rename_i hnm
          rcases hfail with hf | hf | hf | hf | hf
          · exact absurd hf (by simpa [Match.meeplesOf] using hpool)
          · rw [hlf] at hf; cases hf
          · obtain ⟨feat2, hlf2, hbad⟩ := hf
            rw [hlf] at hlf2
            cases hlf2
            exact absurd (not_not.mp htype) hbad
          · exact absurd hf hnm
          · obtain ⟨g, hg, hocc⟩ := hf
            split
            · rename_i g2 hg2
              rw [hg] at hg2
              cases hg2
              rw [if_pos hocc]
              exact ⟨"Meeple rule: that connected feature is already occupied.",
                by rw [Prod.mk.injEq]; exact ⟨hroll _, rfl⟩⟩
            · rename_i hnone
              rw [hg] at hnone
              simp at hnone

def c1wM : Match :=
  { mid := "w", createdAt := 0, finishedAt := none, status := "active",
    player1 := "u1", player2 := "u2",
    board := [((0, 0), { instId := 1, tileId := "S0", rotDeg := 0, meeples := [] })],
    instSeq := 2, remaining := [("A", 0)], score1 := 0, score2 := 0,
    scoredKeys := [], meeples1 := 0, meeples2 := 7, turnPlayer := 1,
    turnIndex := 1, currentTile := some "A", burnedTurn := [],
    nextTile1 := none, nextTile2 := none, turnIntent := none,
    lastEvent := "Match started." }

/-- Witness for C1: a meeple request with an empty pool is rejected and the
match state is returned unchanged. -/
theorem c1_submit_meeple_failure_rolls_back_witness :
    ∃ msg, match_submit_turn_core ceEng 0 c1wM 1 "P1" 1 0 0 (some "r") ([], true)
      = (c1wM, some msg, ([], true)) :=
  c1_submit_meeple_failure_rolls_back ceEng 0 c1wM 1 "P1" 1 0 0 (some "r")
    ([], true) "A" "r" (by decide) (by decide) (by decide) (by decide)
    (by decide) (by decide) (Or.inl (by decide))

/-- C2 (amended): the one-meeple rule is enforced at meeple placement, not as
a global board invariant — whenever `submitTurn` succeeds while placing a
meeple on feature `fid`, the connected group of that feature over the board
containing the tentatively placed tile (before the meeple is attached) holds
zero meeples from either player. Merges by later meeple-less placements may
still produce groups with two meeples (see the counterexample). -/
theorem c2_amended_meeple_lands_on_unoccupied_group
    (eng : Engine) (now : Int) (m : Match) (player : Int) (userName : String)
    (x y rot_deg : Int) (mf : Option String) (rst : RandSt)
    (tile_id fid : String) (m' : Match) (rst' : RandSt)
    (htile : m.currentTile = some tile_id)
    (hsel : selected_meeple_of mf = some fid)
    (hsuccess : match_submit_turn_core eng now m player userName x y rot_deg mf rst
      = (m', none, rst')) :
    ∀ g, lookupA (analyze_board eng (upsertA m.board (x, y)
        { instId := m.instSeq, tileId := tile_id,
          rotDeg := ((rot_deg % 360) + 360) % 360, meeples := [] })).groups
        ((analyze_board eng (upsertA m.board (x, y)
          { instId := m.instSeq, tileId := tile_id,
            rotDeg := ((rot_deg % 360) + 360) % 360, meeples := [] })).uf.find
          (m.instSeq, fid)) = some g →
      g.meeples1 + g.meeples2 ≤ 0 := by
  intro g hg
  unfold match_submit_turn_core at hsuccess
  by_cases h1 : m.status ≠ "active"
  · rw [if_pos h1] at hsuccess
    simp at hsuccess
  · rw [if_neg h1] at hsuccess
    by_cases h2 : player ≠ m.turnPlayer
    · rw [if_pos h2] at hsuccess
      simp at hsuccess
    · rw [if_neg h2] at hsuccess
      rw [htile] at hsuccess
      simp only [] at hsuccess
      by_cases h3 : ((rot_deg % 360) + 360) % 360 ∈ rotations
      · rw [if_neg (not_not_intro h3)] at hsuccess
        by_cases h4 : (can_place_at eng m.board tile_id (((rot_deg % 360) + 360) % 360) x y).1 = true
        · rw [if_neg (not_not_intro h4)] at hsuccess
          rw [hsel] at hsuccess
          simp only [] at hsuccess
          by_cases h5 : ({ m with
              board := upsertA m.board (x, y)
                { instId := m.instSeq, tileId := tile_id,
                  rotDeg := ((rot_deg % 360) + 360) % 360, meeples := [] }
              instSeq := m.instSeq + 1
              currentTile := some tile_id } : Match).meeplesOf player ≤ 0
          · rw [if_pos h5] at hsuccess
            simp at hsuccess
          · rw [if_neg h5] at hsuccess
            cases h6 : lookupA (feature_by_id_of eng tile_id (((rot_deg % 360) + 360) % 360)) fid with
            | none =>
                rw [h6] at hsuccess
                simp at hsuccess
            | some feat =>
                rw [h6] at hsuccess
                simp only [] at hsuccess
                by_cases h7 : feat.ftype = "road" ∨ feat.ftype = "city" ∨
                    feat.ftype = "field" ∨ feat.ftype = "cloister"
                · rw [if_neg (not_not_intro h7)] at hsuccess
                  by_cases h8 : (lookupA (analyze_board eng (upsertA m.board (x, y)
                      { instId := m.instSeq, tileId := tile_id,
                        rotDeg := ((rot_deg % 360) + 360) % 360,
                        meeples := [] })).nodeMeta (m.instSeq, fid)).isNone = true
                  · rw [if_pos h8] at hsuccess
                    simp at hsuccess
                  · rw [if_neg h8] at hsuccess
                    cases h9 : lookupA (analyze_board eng (upsertA m.board (x, y)
                        { instId := m.instSeq, tileId := tile_id,
                          rotDeg := ((rot_deg % 360) + 360) % 360,
                          meeples := [] })).groups
                        ((analyze_board eng (upsertA m.board (x, y)
                          { instId := m.instSeq, tileId := tile_id,
                            rotDeg := ((rot_deg % 360) + 360) % 360,
                            meeples := [] })).uf.find (m.instSeq, fid)) with
                    | none =>
                        rw [h9] at hg
                        cases hg
                    | some group =>
                        rw [h9] at hsuccess
                        simp only [] at hsuccess
                        by_cases h10 : 0 < group.meeples1 + group.meeples2
                        · rw [if_pos h10] at hsuccess
                          simp at hsuccess
                        · rw [h9] at hg
                          cases hg
                          omega
                · rw [if_pos h7] at hsuccess
                  simp at hsuccess
        · rw [if_pos h4] at hsuccess
          simp at hsuccess
      · rw [if_pos h3] at hsuccess
        simp at hsuccess

/-- The group the third counterexample move's meeple lands on, read off the
analysis of the tentative board. -/
def c2wG : Group :=
  (lookupA (analyze_board ceEng (upsertA ceM2.board (-1, 1)
      { instId := ceM2.instSeq, tileId := "A",
        rotDeg := ((0 % 360) + 360) % 360, meeples := [] })).groups
      ((analyze_board ceEng (upsertA ceM2.board (-1, 1)
        { instId := ceM2.instSeq, tileId := "A",
          rotDeg := ((0 % 360) + 360) % 360, meeples := [] })).uf.find
        (ceM2.instSeq, "r"))).getD default

set_option maxHeartbeats 2000000 in
/-- Witness for the amended C2 at the third counterexample move: the meeple
placed there landed on a group with no meeples. -/
theorem c2_amended_meeple_lands_on_unoccupied_group_witness :
    c2wG.meeples1 + c2wG.meeples2 ≤ 0 :=
  c2_amended_meeple_lands_on_unoccupied_group ceEng 0 ceM2 1 "P1" (-1) 1 0
    (some "r") ([1], true) "A" "r" ceM3 ([], true) (by decide) (by decide)
    (by decide) c2wG (by decide)

/-! ## C10: the meeple pools stay within 0..7 -/

/-- Both players' available-meeple counts are within the inclusive range
0..7. -/
def PoolInv (m : Match) : Prop :=
  0 ≤ m.meeples1 ∧ m.meeples1 ≤ 7 ∧ 0 ≤ m.meeples2 ∧ m.meeples2 ≤ 7

theorem poolinv_of_meeples_eq (a b : Match) (h1 : a.meeples1 = b.meeples1)
    (h2 : a.meeples2 = b.meeples2) (h : PoolInv b) : PoolInv a := by
  unfold PoolInv at *
  rw [h1, h2]
  exact h

theorem addScore_meeples (m : Match) (p pts : Int) :
    (m.addScore p pts).meeples1 = m.meeples1 ∧
    (m.addScore p pts).meeples2 = m.meeples2 := by
  unfold Match.addScore
  split_ifs <;> simp

theorem winners_fold_meeples (ws : List Int) (m : Match) (pts : Int) :
    ((ws.foldl (fun mm w => mm.addScore w pts) m).meeples1 = m.meeples1 ∧
     (ws.foldl (fun mm w => mm.addScore w pts) m).meeples2 = m.meeples2) := by
  induction ws generalizing m with
  | nil => exact ⟨rfl, rfl⟩
  | cons w rest ih =>
      simp only [List.foldl_cons]
      obtain ⟨h1, h2⟩ := ih (m.addScore w pts)
      obtain ⟨g1, g2⟩ := addScore_meeples m w pts
      exact ⟨h1.trans g1, h2.trans g2⟩

theorem score_group_step_meeples (acc : Match × List GroupKey)
    (rg : NodeKey × Group) :
    ((score_group_step acc rg).1.meeples1 = acc.1.meeples1 ∧
     (score_group_step acc rg).1.meeples2 = acc.1.meeples2) := by
  unfold score_group_step
  simp only []
  split_ifs
  all_goals exact ⟨rfl, rfl⟩

theorem score_fold_meeples (gs : List (NodeKey × Group))
    (acc : Match × List GroupKey) :
    ((gs.foldl score_group_step acc).1.meeples1 = acc.1.meeples1 ∧
     (gs.foldl score_group_step acc).1.meeples2 = acc.1.meeples2) := by
  induction gs generalizing acc with
  | nil => exact ⟨rfl, rfl⟩
  | cons g rest ih =>
      simp only [List.foldl_cons]
      obtain ⟨h1, h2⟩ := ih (score_group_step acc g)
      obtain ⟨g1, g2⟩ := score_group_step_meeples acc g
      exact ⟨h1.trans g1, h2.trans g2⟩

theorem return_inner_poolinv (analysis : Analysis) (scored_now : List GroupKey)
    (inst : TileInst) (ms : List Meeple) (kept : List Meeple) (mm : Match)
    (h : PoolInv mm) :
    PoolInv (ms.foldl (fun (acc2 : List Meeple × Match) meeple =>
      let kept := acc2.1
      let mm := acc2.2
      let nodeKey : NodeKey := (inst.instId, meeple.featureLocalId)
      if (lookupA analysis.nodeMeta nodeKey).isNone then (kept ++ [meeple], mm)
      else
        match lookupA analysis.groups (analysis.uf.find nodeKey) with
        | none => (kept ++ [meeple], mm)
        | some group =>
            if group.gtype = "field" ∨ ¬ (group.key ∈ scored_now) then
              (kept ++ [meeple], mm)
            else if meeple.player = (1 : Int) then
              (kept, { mm with meeples1 := min 7 (mm.meeples1 + 1) })
            else if meeple.player = (2 : Int) then
              (kept, { mm with meeples2 := min 7 (mm.meeples2 + 1) })
            else (kept, mm)) (kept, mm)).2 := by
  induction ms generalizing kept mm with
  | nil => exact h
  | cons mp rest ih =>
      simp only [List.foldl_cons]
      split
      · exact ih _ _ h
      · split
        · exact ih _ _ h
        · split
          · exact ih _ _ h
          · split
            · refine ih _ _ ?_
              obtain ⟨a1, a2, a3, a4⟩ := h
              have b1 : (0 : Int) ≤ min 7 (mm.meeples1 + 1) := by omega
              have b2 : min 7 (mm.meeples1 + 1) ≤ (7 : Int) := by omega
              exact ⟨b1, b2, a3, a4⟩
            · split
              · refine ih _ _ ?_
                obtain ⟨a1, a2, a3, a4⟩ := h
                have b1 : (0 : Int) ≤ min 7 (mm.meeples2 + 1) := by omega
                have b2 : min 7 (mm.meeples2 + 1) ≤ (7 : Int) := by omega
                exact ⟨a1, a2, b1, b2⟩
              · exact ih _ _ h

theorem return_meeples_step_poolinv (analysis : Analysis)
    (scored_now : List GroupKey) (acc : Board × Match)
    (cellInst : (Int × Int) × TileInst) (h : PoolInv acc.2) :
    PoolInv (return_meeples_step analysis scored_now acc cellInst).2 := by
  unfold return_meeples_step
  exact return_inner_poolinv analysis scored_now cellInst.2 cellInst.2.meeples
    [] acc.2 h

theorem return_fold_poolinv (analysis : Analysis) (scored_now : List GroupKey)
    (b : Board) (acc : Board × Match) (h : PoolInv acc.2) :
    PoolInv (b.foldl (return_meeples_step analysis scored_now) acc).2 := by
  induction b generalizing acc with
  | nil => exact h
  | cons ci rest ih =>
      simp only [List.foldl_cons]
      exact ih _ (return_meeples_step_poolinv analysis scored_now acc ci h)

theorem recompute_core_poolinv (analysis : Analysis) (m0 : Match)
    (h : PoolInv m0) :
    PoolInv
      (let folded := analysis.groups.foldl score_group_step (m0, [])
       let m1 := folded.1
       let scored_now := folded.2
       if scored_now.isEmpty then m1
       else
         let swept := m1.board.foldl (return_meeples_step analysis scored_now) ([], m1)
         { swept.2 with board := swept.1 }) := by
  simp only []
  have hfold : PoolInv (analysis.groups.foldl score_group_step (m0, [])).1 := by
    obtain ⟨h1, h2⟩ := score_fold_meeples analysis.groups (m0, [])
    exact poolinv_of_meeples_eq _ m0 h1 h2 h
  split
  · exact hfold
  · refine poolinv_of_meeples_eq _
      ((analysis.groups.foldl score_group_step (m0, [])).1.board.foldl
        (return_meeples_step analysis
          (analysis.groups.foldl score_group_step (m0, [])).2)
        ([], (analysis.groups.foldl score_group_step (m0, [])).1)).2 rfl rfl ?_
    exact return_fold_poolinv _ _ _ _ hfold

theorem recompute_poolinv (eng : Engine) (m : Match) (r : Bool)
    (h : PoolInv m) : PoolInv (recompute_and_score eng m r) := by
  unfold recompute_and_score
  simp only []
  split
  · exact recompute_core_poolinv (analyze_board eng m.board)
      { m with scoredKeys := [], score1 := 0, score2 := 0 }
      (poolinv_of_meeples_eq _ m rfl rfl h)
  · exact recompute_core_poolinv (analyze_board eng m.board) m h

theorem finalize_fold_meeples (gs : List (NodeKey × Group)) (m : Match) :
    ((gs.foldl (fun mm rootGroup =>
      let g := rootGroup.2
      let winners := winners_of_group g
      if winners.isEmpty then mm
      else if g.gtype ≠ "field" ∧ g.complete ∧ g.key ∈ mm.scoredKeys then mm
      else
        let pts := score_end_now_value g
        if pts ≤ 0 then mm
        else winners.foldl (fun m2 w => m2.addScore w pts) mm) m).meeples1
        = m.meeples1 ∧
     (gs.foldl (fun mm rootGroup =>
      let g := rootGroup.2
      let winners := winners_of_group g
      if winners.isEmpty then mm
      else if g.gtype ≠ "field" ∧ g.complete ∧ g.key ∈ mm.scoredKeys then mm
      else
        let pts := score_end_now_value g
        if pts ≤ 0 then mm
        else winners.foldl (fun m2 w => m2.addScore w pts) mm) m).meeples2
        = m.meeples2) := by
  induction gs generalizing m with
  | nil => exact ⟨rfl, rfl⟩
  | cons g rest ih =>
      simp only [List.foldl_cons]
      set mstep := (fun (mm : Match) (rootGroup : NodeKey × Group) =>
        let g := rootGroup.2
        let winners := winners_of_group g
        if winners.isEmpty then mm
        else if g.gtype ≠ "field" ∧ g.complete ∧ g.key ∈ mm.scoredKeys then mm
        else
          let pts := score_end_now_value g
          if pts ≤ 0 then mm
          else winners.foldl (fun m2 w => m2.addScore w pts) mm) with hstep
    
      have hone : (mstep m g).meeples1 = m.meeples1 ∧ (mstep m g).meeples2 = m.meeples2 := by
        rw [hstep]
        simp only []
        split_ifs
        all_goals try exact ⟨rfl, rfl⟩
        all_goals exact winners_fold_meeples _ m (score_end_now_value g.2)
      obtain ⟨h1, h2⟩ := ih (mstep m g)
      exact ⟨h1.trans hone.1, h2.trans hone.2⟩

theorem finalize_meeples (eng : Engine) (now : Int) (m : Match) :
    (finalize_match eng now m).meeples1 = m.meeples1 ∧
    (finalize_match eng now m).meeples2 = m.meeples2 := by
  unfold finalize_match
  split
  · exact ⟨rfl, rfl⟩
  · exact finalize_fold_meeples (analyze_board eng m.board).groups m

theorem setNextTile_meeples (m : Match) (p : Int) (v : Option String) :
    (m.setNextTile p v).meeples1 = m.meeples1 ∧
    (m.setNextTile p v).meeples2 = m.meeples2 := by
  unfold Match.setNextTile
  split_ifs <;> simp

theorem draw_reserved_meeples (m : Match) (rst : RandSt) :
    ((draw_reserved_tile m rst).2.1).meeples1 = m.meeples1 ∧
    ((draw_reserved_tile m rst).2.1).meeples2 = m.meeples2 := by
  unfold draw_reserved_tile
  simp only []
  split <;> exact ⟨rfl, rfl⟩

theorem ensure_next_step_meeples (acc : Match × RandSt) (p : Int) :
    ((ensure_next_step acc p).1).meeples1 = acc.1.meeples1 ∧
    ((ensure_next_step acc p).1).meeples2 = acc.1.meeples2 := by
  unfold ensure_next_step
  simp only []
  split_ifs
  · exact ⟨rfl, rfl⟩
  · exact ⟨rfl, rfl⟩
  · split
    · exact draw_reserved_meeples acc.1 acc.2
    · obtain ⟨h1, h2⟩ := setNextTile_meeples (draw_reserved_tile acc.1 acc.2).2.1 p _
      obtain ⟨g1, g2⟩ := draw_reserved_meeples acc.1 acc.2
      exact ⟨h1.trans g1, h2.trans g2⟩

theorem ensure_next_meeples (m : Match) (rst : RandSt) :
    ((ensure_next_tiles m rst).1).meeples1 = m.meeples1 ∧
    ((ensure_next_tiles m rst).1).meeples2 = m.meeples2 := by
  unfold ensure_next_tiles
  split
  · exact ⟨rfl, rfl⟩
  · show ((ensure_next_step (ensure_next_step (m, rst) 1) 2).1.meeples1 = m.meeples1 ∧ _)
    obtain ⟨h1, h2⟩ := ensure_next_step_meeples (ensure_next_step (m, rst) 1) 2
    obtain ⟨g1, g2⟩ := ensure_next_step_meeples (m, rst) 1
    exact ⟨h1.trans g1, h2.trans g2⟩

theorem draw_aux_meeples (eng : Engine) (now : Int) (fuel : Nat) (m : Match)
    (rst : RandSt) (burned : List String) :
    ((draw_placeable_tile_aux eng now fuel m rst burned).1).meeples1 = m.meeples1 ∧
    ((draw_placeable_tile_aux eng now fuel m rst burned).1).meeples2 = m.meeples2 := by
  induction fuel generalizing m rst burned with
  | zero => exact ⟨rfl, rfl⟩
  | succ fuel ih =>
      unfold draw_placeable_tile_aux
      cases hnext : m.nextTileOf m.turnPlayer with
      | some tid =>
          simp only []
          split
          · obtain ⟨h1, h2⟩ := ensure_next_meeples
              { m.setNextTile m.turnPlayer none with
                currentTile := some tid
                burnedTurn := burned
                turnIntent := none } rst
            obtain ⟨g1, g2⟩ := setNextTile_meeples m m.turnPlayer none
            exact ⟨h1.trans g1, h2.trans g2⟩
          · obtain ⟨h1, h2⟩ := ih (m.setNextTile m.turnPlayer none) rst (burned ++ [tid])
            obtain ⟨g1, g2⟩ := setNextTile_meeples m m.turnPlayer none
            exact ⟨h1.trans g1, h2.trans g2⟩
      | none =>
          simp only []
          rcases hdr : draw_reserved_tile m rst with ⟨t, m1, rst1⟩
          have hm1 : m1.meeples1 = m.meeples1 ∧ m1.meeples2 = m.meeples2 := by
            have := draw_reserved_meeples m rst
            rw [hdr] at this
            exact this
          cases t with
          | none =>
              simp only []
              obtain ⟨h1, h2⟩ := finalize_meeples eng now
                { m1 with currentTile := none, burnedTurn := burned }
              exact ⟨h1.trans hm1.1, h2.trans hm1.2⟩
          | some tid =>
              simp only []
              split
              · obtain ⟨h1, h2⟩ := ensure_next_meeples
                  { m1 with
                    currentTile := some tid
                    burnedTurn := burned
                    turnIntent := none } rst1
                exact ⟨h1.trans hm1.1, h2.trans hm1.2⟩
              · obtain ⟨h1, h2⟩ := ih m1 rst1 (burned ++ [tid])
                exact ⟨h1.trans hm1.1, h2.trans hm1.2⟩

theorem submit_finish_poolinv (eng : Engine) (now : Int) (m2 : Match)
    (player : Int) (userName tile_id : String) (x y rrot : Int)
    (mf : Option String) (rst : RandSt) (h : PoolInv m2) :
    PoolInv (submit_finish eng now m2 player userName tile_id x y rrot mf rst).1 := by
  unfold submit_finish
  simp only []
  have hm3 := recompute_poolinv eng m2 false h
  obtain ⟨h1, h2⟩ := draw_aux_meeples eng now
    (draw_measure { recompute_and_score eng m2 false with
      turnPlayer := if player = 2 then 1 else 2
      turnIndex := (recompute_and_score eng m2 false).turnIndex + 1
      currentTile := none
      burnedTurn := []
      turnIntent := none
      lastEvent := format_place_event userName tile_id x y rrot mf } + 1)
    { recompute_and_score eng m2 false with
      turnPlayer := if player = 2 then 1 else 2
      turnIndex := (recompute_and_score eng m2 false).turnIndex + 1
      currentTile := none
      burnedTurn := []
      turnIntent := none
      lastEvent := format_place_event userName tile_id x y rrot mf } rst []
  exact poolinv_of_meeples_eq _ _ h1 h2 hm3

theorem setMeeples_poolinv (m : Match) (p v : Int) (h : PoolInv m)
    (hv1 : 0 ≤ v) (hv2 : v ≤ 7) : PoolInv (m.setMeeples p v) := by
  obtain ⟨a1, a2, a3, a4⟩ := h
  unfold Match.setMeeples
  split_ifs
  · exact ⟨hv1, hv2, a3, a4⟩
  · exact ⟨a1, a2, hv1, hv2⟩
  · exact ⟨a1, a2, a3, a4⟩

theorem plant_poolinv (eng : Engine) (now : Int) (m1 : Match) (player : Int)
    (userName tile_id : String) (cell : Int × Int) (inst_id : Int)
    (x y rrot : Int) (fid : String) (rst : RandSt) (h : PoolInv m1) :
    PoolInv (plant_meeple_and_finish eng now m1 player userName tile_id cell
      inst_id x y rrot fid rst).1 := by
  obtain ⟨a1, a2, a3, a4⟩ := h
  unfold plant_meeple_and_finish
  simp only []
  apply submit_finish_poolinv
  apply setMeeples_poolinv
  · exact poolinv_of_meeples_eq _ m1 rfl rfl ⟨a1, a2, a3, a4⟩
  · unfold Match.meeplesOf
    split_ifs <;> simp
  · unfold Match.meeplesOf
    split_ifs <;> simp <;> omega

theorem submit_poolinv (eng : Engine) (now : Int) (m : Match) (player : Int)
    (userName : String) (x y rot_deg : Int) (mf : Option String) (rst : RandSt)
    (h : PoolInv m) :
    PoolInv (match_submit_turn_core eng now m player userName x y rot_deg mf rst).1 := by
  unfold match_submit_turn_core
  split
  · exact h
  · split
    · exact h
    · split
      · exact h
      · rename_i tile_id htile
        simp only []
        split
        · exact h
        · split
          · exact h
          · split
            · apply submit_finish_poolinv
              exact poolinv_of_meeples_eq _ m rfl rfl h
            · split
              · exact poolinv_of_meeples_eq _ m rfl rfl h
              · split
                · exact poolinv_of_meeples_eq _ m rfl rfl h
                · split
                  · exact poolinv_of_meeples_eq _ m rfl rfl h
                  · split
                    · exact poolinv_of_meeples_eq _ m rfl rfl h
                    · split
                      · split
                        · exact poolinv_of_meeples_eq _ m rfl rfl h
                        · apply plant_poolinv
                          exact poolinv_of_meeples_eq _ m rfl rfl h
                      · apply plant_poolinv
                        exact poolinv_of_meeples_eq _ m rfl rfl h

theorem abort_meeples (now : Int) (m : Match) (reason : String) :
    (abort_match now m reason).meeples1 = m.meeples1 ∧
    (abort_match now m reason).meeples2 = m.meeples2 := by
  unfold abort_match
  split <;> exact ⟨rfl, rfl⟩

theorem intent_meeples (eng : Engine) (m : Match) (userId : String)
    (x y rot_deg : Int) (mf : Option String) (clear locked : Bool) :
    ((match_intent_core eng m userId x y rot_deg mf clear locked).1).meeples1
      = m.meeples1 ∧
    ((match_intent_core eng m userId x y rot_deg mf clear locked).1).meeples2
      = m.meeples2 := by
  unfold match_intent_core set_turn_intent
  simp only []
  repeat' split
  all_goals exact ⟨rfl, rfl⟩

/-- C10: each player's available-meeple count stays within 0..7 — the pools
of a freshly created match satisfy the bounds, and every match operation
(turn submission with its internal scoring, returns and draws, resignation,
intent publication) preserves them. -/
theorem c10_meeple_pools_bounded :
    (∀ (eng : Engine) (m0 : Match), IsInitialMatch eng m0 → PoolInv m0) ∧
    (∀ (eng : Engine) (m0 m : Match), PoolInv m0 → MatchReach eng m0 m →
      PoolInv m) := by
  constructor
  · rintro eng m0 ⟨now, mid, ua, ub, tc, rs, rst2, _, hnew, _⟩
    unfold new_match at hnew
    split at hnew
    · cases hnew
    · rename_i start_tile hstart
      simp only [Option.some_inj] at hnew
      have hmm : m0 = (draw_placeable_tile_for_match eng now
          (ensure_next_tiles (initial_match_record eng now mid ua ub tc start_tile)
            (rs, true)).1
          (ensure_next_tiles (initial_match_record eng now mid ua ub tc start_tile)
            (rs, true)).2).1 :=
        (congrArg Prod.fst hnew).symm
      obtain ⟨d1, d2⟩ := draw_aux_meeples eng now
        (draw_measure (ensure_next_tiles
          (initial_match_record eng now mid ua ub tc start_tile) (rs, true)).1 + 1)
        (ensure_next_tiles (initial_match_record eng now mid ua ub tc start_tile)
          (rs, true)).1
        (ensure_next_tiles (initial_match_record eng now mid ua ub tc start_tile)
          (rs, true)).2 []
      obtain ⟨e1, e2⟩ := ensure_next_meeples
        (initial_match_record eng now mid ua ub tc start_tile) (rs, true)
      have hpool : PoolInv (initial_match_record eng now mid ua ub tc start_tile) :=
        ⟨by norm_num [initial_match_record], by norm_num [initial_match_record],
         by norm_num [initial_match_record], by norm_num [initial_match_record]⟩
      rw [hmm]
      unfold draw_placeable_tile_for_match
      exact poolinv_of_meeples_eq _ _ (d1.trans e1) (d2.trans e2) hpool
  · intro eng m0 m h hreach
    induction hreach with
    | refl => exact h
    | step mA mB _ hstep ih =>
        cases hstep with
        | submit now player x y rot_deg mf userName rs hvalid =>
            exact submit_poolinv eng now mA player userName x y rot_deg mf
              (rs, true) ih
        | resign now reason =>
            obtain ⟨h1, h2⟩ := abort_meeples now mA reason
            exact poolinv_of_meeples_eq _ _ h1 h2 ih
        | intent userId x y rot_deg mf clear locked =>
            obtain ⟨h1, h2⟩ := intent_meeples eng mA userId x y rot_deg mf
              clear locked
            exact poolinv_of_meeples_eq _ _ h1 h2 ih

/-! ## C5: incremental scoring is idempotent per group key -/

/-- A group with its meeple tallies blanked: the part of a group that the
meeple-tally pass cannot change. -/
def stripTallies (g : Group) : Group :=
  { g with meeples1 := 0, meeples2 := 0 }

def mapSnd (f : β → γ) (l : List (α × β)) : List (α × γ) :=
  l.map fun kv => (kv.1, f kv.2)

theorem mapSnd_upsert_strip [DecidableEq α] (gs : List (α × Group)) (k : α)
    (g g' : Group) (hlk : lookupA gs k = some g)
    (hstrip : stripTallies g' = stripTallies g) :
    mapSnd stripTallies (upsertA gs k g') = mapSnd stripTallies gs := by
  induction gs with
  | nil => simp [lookupA] at hlk
  | cons hd tl ih =>
      obtain ⟨k0, v0⟩ := hd
      by_cases hk : k0 = k
      · subst hk
        simp only [lookupA, if_true] at hlk
        simp at hlk
        subst hlk
        simp [upsertA, mapSnd, hstrip]
      · simp only [lookupA, if_neg hk] at hlk
        simp [upsertA, hk, mapSnd] at *
        exact ih hlk

theorem strip_bump1 (g : Group) :
    stripTallies { g with meeples1 := g.meeples1 + 1 } = stripTallies g := rfl

theorem strip_bump2 (g : Group) :
    stripTallies { g with meeples2 := g.meeples2 + 1 } = stripTallies g := rfl

theorem pass_meeples_inner_strip (nodeMeta : List (NodeKey × NodeMeta))
    (uf : UnionFind) (inst : TileInst) (ms : List Meeple)
    (gs : List (NodeKey × Group)) :
    mapSnd stripTallies (ms.foldl (fun gs2 meeple =>
      let nodeKey : NodeKey := (inst.instId, meeple.featureLocalId)
      if (lookupA nodeMeta nodeKey).isNone then gs2
      else
        match lookupA gs2 (uf.find nodeKey) with
        | none => gs2
        | some g =>
            if meeple.player = (1 : Int) then
              upsertA gs2 (uf.find nodeKey) { g with meeples1 := g.meeples1 + 1 }
            else if meeple.player = (2 : Int) then
              upsertA gs2 (uf.find nodeKey) { g with meeples2 := g.meeples2 + 1 }
            else gs2) gs) = mapSnd stripTallies gs := by
  induction ms generalizing gs with
  | nil => rfl
  | cons mp rest ih =>
      simp only [List.foldl_cons]
      split
      · exact ih gs
      · split
        · exact ih gs
        · rename_i g hg
          split
          · rw [ih _, mapSnd_upsert_strip _ _ _ _ hg (strip_bump1 g)]
          · split
            · rw [ih _, mapSnd_upsert_strip _ _ _ _ hg (strip_bump2 g)]
            · exact ih gs

theorem pass_meeples_strip (b : Board) (nodeMeta : List (NodeKey × NodeMeta))
    (uf : UnionFind) (gs : List (NodeKey × Group)) :
    mapSnd stripTallies (analyze_pass_meeples b nodeMeta uf gs) =
      mapSnd stripTallies gs := by
  unfold analyze_pass_meeples
  induction b generalizing gs with
  | nil => rfl
  | cons ci rest ih =>
      simp only [List.foldl_cons]
      rw [ih _, pass_meeples_inner_strip]

theorem mapSnd_mem_transfer [DecidableEq α] (f : β → γ)
    (xs ys : List (α × β)) (h : mapSnd f xs = mapSnd f ys) (k : α) (v : β)
    (hmem : (k, v) ∈ xs) : ∃ w, (k, w) ∈ ys ∧ f v = f w := by
  induction xs generalizing ys with
  | nil => simp at hmem
  | cons hd tl ih =>
      obtain ⟨k1, v1⟩ := hd
      cases ys with
      | nil => simp [mapSnd] at h
      | cons hd2 tl2 =>
          obtain ⟨k2, w2⟩ := hd2
          simp only [mapSnd, List.map_cons, List.cons.injEq] at h
          obtain ⟨hh, ht⟩ := h
          rcases List.mem_cons.mp hmem with heq | hmem2
          · cases heq
            have hk : k = k2 := congrArg Prod.fst hh
            refine ⟨w2, ?_, congrArg Prod.snd hh⟩
            rw [hk]
            exact List.mem_cons_self _ _
          · obtain ⟨w, hw, hfw⟩ := ih tl2 ht hmem2
            exact ⟨w, List.mem_cons_of_mem _ hw, hfw⟩

/-- A group whose key is already in the scored set contributes nothing: the
scoring step returns its state unchanged. -/
theorem score_group_step_scored_key (acc : Match × List GroupKey)
    (rg : NodeKey × Group) (h : rg.2.key ∈ acc.1.scoredKeys) :
    score_group_step acc rg = acc := by
  unfold score_group_step
  simp only []
  split_ifs with h1
  all_goals rfl

theorem mem_addUnique [DecidableEq α] (l : List α) (x y : α) (h : y ∈ l) :
    y ∈ addUnique l x := by
  unfold addUnique
  split_ifs
  · exact h
  · exact List.mem_append_left _ h

theorem self_mem_addUnique [DecidableEq α] (l : List α) (x : α) :
    x ∈ addUnique l x := by
  unfold addUnique
  split_ifs with hin
  · exact hin
  · exact List.mem_append_right _ (List.mem_singleton.mpr rfl)

theorem winners_fold_scored (ws : List Int) (m : Match) (pts : Int) :
    (ws.foldl (fun mm w => mm.addScore w pts) m).scoredKeys = m.scoredKeys := by
  induction ws generalizing m with
  | nil => rfl
  | cons w rest ih =>
      simp only [List.foldl_cons]
      rw [ih]
      unfold Match.addScore
      split_ifs <;> rfl

theorem score_fold_scored_subset (gs : List (NodeKey × Group))
    (acc : Match × List GroupKey) (k : GroupKey)
    (h : k ∈ acc.1.scoredKeys) :
    k ∈ (gs.foldl score_group_step acc).1.scoredKeys := by
  induction gs generalizing acc with
  | nil => exact h
  | cons g rest ih =>
      simp only [List.foldl_cons]
      refine ih (score_group_step acc g) ?_
      unfold score_group_step
      simp only []
      split_ifs
      all_goals try exact h
      all_goals exact mem_addUnique _ _ _ h

theorem score_fold_covers (gs : List (NodeKey × Group))
    (acc : Match × List GroupKey) (k : NodeKey) (g : Group)
    (hmem : (k, g) ∈ gs) (hc : g.complete = true) (hf : g.gtype ≠ "field") :
    g.key ∈ (gs.foldl score_group_step acc).1.scoredKeys := by
  induction gs generalizing acc with
  | nil => simp at hmem
  | cons hd rest ih =>
      simp only [List.foldl_cons]
      rcases List.mem_cons.mp hmem with heq | hmem2
      · subst heq
        refine score_fold_scored_subset rest _ g.key ?_
        unfold score_group_step
        simp only []
        split_ifs with h1 h2
        · rcases h1 with h1 | h1
          · exact absurd h1 hf
          · rw [hc] at h1; simp at h1
        · exact h2
        all_goals try exact self_mem_addUnique _ _
      · exact ih _ hmem2

theorem score_fold_skip_all (gs : List (NodeKey × Group))
    (acc : Match × List GroupKey)
    (h : ∀ p ∈ gs, p.2.gtype = "field" ∨ p.2.complete = false ∨
      p.2.key ∈ acc.1.scoredKeys) :
    gs.foldl score_group_step acc = acc := by
  induction gs with
  | nil => rfl
  | cons hd rest ih =>
      simp only [List.foldl_cons]
      have hstep : score_group_step acc hd = acc := by
        rcases h hd (List.mem_cons_self _ _) with h1 | h1 | h1
        · unfold score_group_step
          simp only []
          rw [if_pos (Or.inl h1)]
        · unfold score_group_step
          simp only []
          rw [if_pos (Or.inr (by simp [h1]))]
        · exact score_group_step_scored_key acc hd h1
      rw [hstep]
      exact ih fun p hp => h p (List.mem_cons_of_mem _ hp)

theorem winners_fold_board (ws : List Int) (m : Match) (pts : Int) :
    (ws.foldl (fun mm w => mm.addScore w pts) m).board = m.board := by
  induction ws generalizing m with
  | nil => rfl
  | cons w rest ih =>
      simp only [List.foldl_cons]
      rw [ih]
      unfold Match.addScore
      split_ifs <;> rfl

theorem score_group_step_board (acc : Match × List GroupKey)
    (rg : NodeKey × Group) :
    (score_group_step acc rg).1.board = acc.1.board := by
  unfold score_group_step
  simp only []
  split_ifs
  all_goals rfl

theorem score_fold_board (gs : List (NodeKey × Group))
    (acc : Match × List GroupKey) :
    (gs.foldl score_group_step acc).1.board = acc.1.board := by
  induction gs generalizing acc with
  | nil => rfl
  | cons g rest ih =>
      simp only [List.foldl_cons]
      rw [ih, score_group_step_board]

theorem return_inner_scored (analysis : Analysis) (scored_now : List GroupKey)
    (inst : TileInst) (ms : List Meeple) (kept : List Meeple) (mm : Match) :
    (ms.foldl (fun (acc2 : List Meeple × Match) meeple =>
      let kept := acc2.1
      let mm := acc2.2
      let nodeKey : NodeKey := (inst.instId, meeple.featureLocalId)
      if (lookupA analysis.nodeMeta nodeKey).isNone then (kept ++ [meeple], mm)
      else
        match lookupA analysis.groups (analysis.uf.find nodeKey) with
        | none => (kept ++ [meeple], mm)
        | some group =>
            if group.gtype = "field" ∨ ¬ (group.key ∈ scored_now) then
              (kept ++ [meeple], mm)
            else if meeple.player = (1 : Int) then
              (kept, { mm with meeples1 := min 7 (mm.meeples1 + 1) })
            else if meeple.player = (2 : Int) then
              (kept, { mm with meeples2 := min 7 (mm.meeples2 + 1) })
            else (kept, mm)) (kept, mm)).2.scoredKeys = mm.scoredKeys := by
  induction ms generalizing kept mm with
  | nil => rfl
  | cons mp rest ih =>
      simp only [List.foldl_cons]
      split
      · exact ih _ _
      · split
        · exact ih _ _
        · split
          · exact ih _ _
          · split
            · exact ih _ _
            · split
              · exact ih _ _
              · exact ih _ _

theorem return_meeples_step_scored (analysis : Analysis)
    (scored_now : List GroupKey) (acc : Board × Match)
    (cellInst : (Int × Int) × TileInst) :
    (return_meeples_step analysis scored_now acc cellInst).2.scoredKeys =
      acc.2.scoredKeys := by
  unfold return_meeples_step
  exact return_inner_scored analysis scored_now cellInst.2 cellInst.2.meeples
    [] acc.2

theorem return_fold_scored (analysis : Analysis) (scored_now : List GroupKey)
    (b : Board) (acc : Board × Match) :
    (b.foldl (return_meeples_step analysis scored_now) acc).2.scoredKeys =
      acc.2.scoredKeys := by
  induction b generalizing acc with
  | nil => rfl
  | cons ci rest ih =>
      simp only [List.foldl_cons]
      rw [ih, return_meeples_step_scored]

theorem return_meeples_step_skel (analysis : Analysis)
    (scored_now : List GroupKey) (acc : Board × Match)
    (cellInst : (Int × Int) × TileInst) :
    skeletonOf (return_meeples_step analysis scored_now acc cellInst).1 =
      skeletonOf acc.1 ++ [(cellInst.1, { cellInst.2 with meeples := [] })] := by
  unfold return_meeples_step
  simp only [skeletonOf, List.map_append, List.map_cons, List.map_nil]

theorem return_fold_skel (analysis : Analysis) (scored_now : List GroupKey)
    (b : Board) (acc : Board × Match) :
    skeletonOf (b.foldl (return_meeples_step analysis scored_now) acc).1 =
      skeletonOf acc.1 ++ skeletonOf b := by
  induction b generalizing acc with
  | nil => simp [skeletonOf]
  | cons ci rest ih =>
      simp only [List.foldl_cons]
      rw [ih, return_meeples_step_skel]
      simp [skeletonOf, List.append_assoc]

/-- The body of `_recompute_and_score_locked` after the analysis and the
reaward reset have been taken: score fold, then the meeple-return sweep. -/
def recompute_core (analysis : Analysis) (m0 : Match) : Match :=
  let folded := analysis.groups.foldl score_group_step (m0, [])
  let m1 := folded.1
  let scored_now := folded.2
  if scored_now.isEmpty then m1
  else
    let swept := m1.board.foldl (return_meeples_step analysis scored_now) ([], m1)
    { swept.2 with board := swept.1 }

theorem recompute_and_score_core_eq (eng : Engine) (m : Match) (r : Bool) :
    recompute_and_score eng m r =
      recompute_core (analyze_board eng m.board)
        (if r then { m with scoredKeys := [], score1 := 0, score2 := 0 }
         else m) := rfl

theorem recompute_core_skel (analysis : Analysis) (m0 : Match) :
    skeletonOf (recompute_core analysis m0).board = skeletonOf m0.board := by
  unfold recompute_core
  simp only []
  split_ifs with he
  · rw [score_fold_board]
  · simp only []
    rw [return_fold_skel]
    simp only [skeletonOf, List.map_nil, List.nil_append]
    rw [score_fold_board]

theorem recompute_core_covers (analysis : Analysis) (m0 : Match)
    (k : NodeKey) (g : Group) (hmem : (k, g) ∈ analysis.groups)
    (hc : g.complete = true) (hf : g.gtype ≠ "field") :
    g.key ∈ (recompute_core analysis m0).scoredKeys := by
  unfold recompute_core
  simp only []
  split_ifs with he
  · exact score_fold_covers _ _ k g hmem hc hf
  · simp only []
    rw [return_fold_scored]
    exact score_fold_covers _ _ k g hmem hc hf

theorem recompute_core_skip (analysis : Analysis) (m0 : Match)
    (h : ∀ p ∈ analysis.groups, p.2.gtype = "field" ∨ p.2.complete = false ∨
      p.2.key ∈ m0.scoredKeys) :
    recompute_core analysis m0 = m0 := by
  unfold recompute_core
  simp only []
  rw [score_fold_skip_all _ (m0, ([] : List GroupKey)) h]
  rfl

theorem stripTallies_fields (g w : Group) (h : stripTallies g = stripTallies w) :
    g.gtype = w.gtype ∧ g.complete = w.complete ∧ g.key = w.key :=
  ⟨show (stripTallies g).gtype = (stripTallies w).gtype from congrArg Group.gtype h,
   show (stripTallies g).complete = (stripTallies w).complete from
     congrArg Group.complete h,
   show (stripTallies g).key = (stripTallies w).key from congrArg Group.key h⟩

theorem analyze_groups_strip (eng : Engine) (b b' : Board)
    (h : skeletonOf b = skeletonOf b') :
    mapSnd stripTallies (analyze_board eng b).groups =
      mapSnd stripTallies (analyze_board eng b').groups := by
  unfold analyze_board
  simp only []
  rw [h, pass_meeples_strip, pass_meeples_strip]

theorem recompute_covers (eng : Engine) (m : Match) (k : NodeKey) (w : Group)
    (hw : (k, w) ∈ (analyze_board eng m.board).groups) (hc : w.complete = true)
    (hf : w.gtype ≠ "field") :
    w.key ∈ (recompute_and_score eng m false).scoredKeys := by
  rw [recompute_and_score_core_eq]
  exact recompute_core_covers _ _ k w hw hc hf

theorem recompute_and_score_idem (eng : Engine) (m : Match) :
    recompute_and_score eng (recompute_and_score eng m false) false =
      recompute_and_score eng m false := by
  have hskel : skeletonOf (recompute_and_score eng m false).board =
      skeletonOf m.board := by
    rw [recompute_and_score_core_eq]
    exact recompute_core_skel _ _
  have hstripeq := analyze_groups_strip eng
    (recompute_and_score eng m false).board m.board hskel
  have hcov : ∀ p ∈ (analyze_board eng
      (recompute_and_score eng m false).board).groups,
      p.2.gtype = "field" ∨ p.2.complete = false ∨
        p.2.key ∈ (recompute_and_score eng m false).scoredKeys := by
    intro p hp
    obtain ⟨k, g⟩ := p
    obtain ⟨w, hw, hsw⟩ := mapSnd_mem_transfer stripTallies _ _ hstripeq k g hp
    obtain ⟨hg, hc, hk⟩ := stripTallies_fields g w hsw
    by_cases hf : w.gtype = "field"
    · exact Or.inl (hg.trans hf)
    by_cases hcw : w.complete = true
    · refine Or.inr (Or.inr ?_)
      rw [hk]
      exact recompute_covers eng m k w hw hcw hf
    · refine Or.inr (Or.inl ?_)
      rw [hc]
      simpa using hcw
  rw [recompute_and_score_core_eq eng (recompute_and_score eng m false) false]
  exact recompute_core_skip _ _ hcov

def c5wG : Group :=
  { gid := ((0 : Int), "r")
    gtype := "road"
    nodes := []
    tiles := []
    meeples1 := 0
    meeples2 := 0
    pennants := 0
    complete := true
    openPorts := []
    adjacentCount := 0
    adjCompletedCities := []
    key := ("road", [((1 : Int), "r")]) }

def c5wM : Match :=
  { (default : Match) with scoredKeys := [("road", [((1 : Int), "r")])] }

/-- C5: incremental scoring is idempotent per group key: a scoring step for a
group whose key is already recorded in the match's scored-key set returns the
match and the freshly-scored set unchanged (so no points are awarded for the
group and the meeple-return sweep, which only touches freshly scored keys,
returns no meeples for it); and running `_recompute_and_score_locked` in
incremental mode twice in a row on the same board leaves the whole match — in
particular both players' scores — unchanged the second time. -/
theorem c5_incremental_scoring_idempotent :
    (∀ (acc : Match × List GroupKey) (rg : NodeKey × Group),
        rg.2.key ∈ acc.1.scoredKeys → score_group_step acc rg = acc) ∧
    (∀ (eng : Engine) (m : Match),
        recompute_and_score eng (recompute_and_score eng m false) false =
          recompute_and_score eng m false ∧
        (recompute_and_score eng (recompute_and_score eng m false) false).score1 =
          (recompute_and_score eng m false).score1 ∧
        (recompute_and_score eng (recompute_and_score eng m false) false).score2 =
          (recompute_and_score eng m false).score2) :=
  ⟨fun acc rg h => score_group_step_scored_key acc rg h,
   fun eng m =>
     ⟨recompute_and_score_idem eng m,
      congrArg Match.score1 (recompute_and_score_idem eng m),
      congrArg Match.score2 (recompute_and_score_idem eng m)⟩⟩

theorem c5_incremental_scoring_idempotent_witness :
    c5wG.key ∈ (c5wM, ([] : List GroupKey)).1.scoredKeys ∧
    score_group_step (c5wM, ([] : List GroupKey)) (((0 : Int), "r"), c5wG) =
      (c5wM, ([] : List GroupKey)) :=
  ⟨by decide,
   c5_incremental_scoring_idempotent.1 (c5wM, []) (((0 : Int), "r"), c5wG)
     (by decide)⟩

set_option maxHeartbeats 2000000 in
theorem c10_meeple_pools_bounded_witness : PoolInv ceM1 :=
  c10_meeple_pools_bounded.2 ceEng ceM0 ceM1
    (c10_meeple_pools_bounded.1 ceEng ceM0
      ⟨0, "m1", "u1", "u2", 1, [4, 4], ([], true), Or.inl rfl, by decide, rfl⟩)
    (.step ceM0 ceM1 .refl
      (.submit ceM0 0 1 (-1) 0 0 none "P1" [1] (by decide)))

theorem setNextTile_preserves (m : Match) (p : Int) (v : Option String) :
    (m.setNextTile p v).status = m.status ∧
    (m.setNextTile p v).board = m.board ∧
    (m.setNextTile p v).currentTile = m.currentTile := by
  unfold Match.setNextTile
  split_ifs <;> exact ⟨rfl, rfl, rfl⟩

theorem nextTileOf_congr (m1 m : Match) (p : Int)
    (h1 : m1.nextTile1 = m.nextTile1) (h2 : m1.nextTile2 = m.nextTile2) :
    m1.nextTileOf p = m.nextTileOf p := by
  unfold Match.nextTileOf
  split_ifs <;> simp [h1, h2]

theorem draw_reserved_proj (m : Match) (rst : RandSt) :
    ((draw_reserved_tile m rst).2.1).status = m.status ∧
    ((draw_reserved_tile m rst).2.1).board = m.board ∧
    ((draw_reserved_tile m rst).2.1).currentTile = m.currentTile := by
  unfold draw_reserved_tile
  simp only []
  split <;> exact ⟨rfl, rfl, rfl⟩

theorem draw_reserved_fields (m : Match) (rst : RandSt) (t : Option String)
    (m1 : Match) (rst1 : RandSt)
    (h : draw_reserved_tile m rst = (t, m1, rst1)) :
    m1.status = m.status ∧ m1.board = m.board ∧
    m1.nextTile1 = m.nextTile1 ∧ m1.nextTile2 = m.nextTile2 ∧
    m1.turnPlayer = m.turnPlayer := by
  unfold draw_reserved_tile at h
  simp only [] at h
  split at h
  · simp only [Prod.mk.injEq] at h
    obtain ⟨h1, h2, h3⟩ := h
    subst h2
    exact ⟨rfl, rfl, rfl, rfl, rfl⟩
  · simp only [Prod.mk.injEq] at h
    obtain ⟨h1, h2, h3⟩ := h
    subst h2
    exact ⟨rfl, rfl, rfl, rfl, rfl⟩

theorem ensure_next_step_preserves (acc : Match × RandSt) (p : Int) :
    (ensure_next_step acc p).1.currentTile = acc.1.currentTile ∧
    (ensure_next_step acc p).1.status = acc.1.status ∧
    (ensure_next_step acc p).1.board = acc.1.board := by
  unfold ensure_next_step
  simp only []
  split_ifs
  · exact ⟨rfl, rfl, rfl⟩
  · exact ⟨rfl, rfl, rfl⟩
  · split
    · exact ⟨(draw_reserved_proj acc.1 acc.2).2.2,
        (draw_reserved_proj acc.1 acc.2).1, (draw_reserved_proj acc.1 acc.2).2.1⟩
    · refine ⟨?_, ?_, ?_⟩
      · exact ((setNextTile_preserves _ p _).2.2).trans
          (draw_reserved_proj acc.1 acc.2).2.2
      · exact ((setNextTile_preserves _ p _).1).trans
          (draw_reserved_proj acc.1 acc.2).1
      · exact ((setNextTile_preserves _ p _).2.1).trans
          (draw_reserved_proj acc.1 acc.2).2.1

theorem ensure_next_preserves (m : Match) (rst : RandSt) :
    (ensure_next_tiles m rst).1.currentTile = m.currentTile ∧
    (ensure_next_tiles m rst).1.status = m.status ∧
    (ensure_next_tiles m rst).1.board = m.board := by
  unfold ensure_next_tiles
  split_ifs
  · exact ⟨rfl, rfl, rfl⟩
  · simp only [List.foldl]
    obtain ⟨a1, a2, a3⟩ := ensure_next_step_preserves (m, rst) 1
    obtain ⟨b1, b2, b3⟩ :=
      ensure_next_step_preserves (ensure_next_step (m, rst) 1) 2
    exact ⟨b1.trans a1, b2.trans a2, b3.trans a3⟩

theorem finalize_active_fields (eng : Engine) (now : Int) (m : Match)
    (h : m.status = "active") :
    (finalize_match eng now m).status = "finished" ∧
    (finalize_match eng now m).currentTile = none := by
  unfold finalize_match
  rw [if_neg (not_not_intro h)]
  exact ⟨rfl, rfl⟩

/-- The two ways the burn loop can hand a match back: a placeable current
tile was assigned and the match stays active, or the supply ran out and the
match was finalized. -/
def DrawOutcome (eng : Engine) (r : Match × RandSt) : Prop :=
  ((∃ tid, r.1.currentTile = some tid ∧
      has_any_placement eng r.1.board tid = true) ∧ r.1.status = "active") ∨
  (r.1.status = "finished" ∧ r.1.currentTile = none)

theorem draw_aux_dichotomy (eng : Engine) (now : Int) :
    ∀ (fuel : Nat) (m : Match) (rst : RandSt) (burned : List String),
      m.status = "active" → draw_measure m < fuel →
      DrawOutcome eng (draw_placeable_tile_aux eng now fuel m rst burned) := by
  intro fuel
  induction fuel with
  | zero => intro m rst burned hact hlt; omega
  | succ fuel ih =>
      intro m rst burned hact hlt
      simp only [draw_placeable_tile_aux]
      rcases hnt : m.nextTileOf m.turnPlayer with _ | tid
      · simp only []
        rcases hdr : draw_reserved_tile m rst with ⟨t, m1, rst1⟩
        have hfields := draw_reserved_fields m rst t m1 rst1 hdr
        rcases t with _ | tid
        · simp only []
          right
          have hst : ({ m1 with currentTile := none, burnedTurn := burned } : Match).status = "active" :=
            hfields.1.trans hact
          exact ⟨(finalize_active_fields eng now _ hst).1,
            (finalize_active_fields eng now _ hst).2⟩
        · simp only []
          by_cases hpl : has_any_placement eng m1.board tid = true
          · rw [if_pos hpl]
            obtain ⟨e1, e2, e3⟩ := ensure_next_preserves
              { m1 with currentTile := some tid, burnedTurn := burned, turnIntent := none } rst1
            left
            refine ⟨⟨tid, e1, ?_⟩, ?_⟩
            · rw [e3]
              exact hpl
            · rw [e2]
              exact hfields.1.trans hact
          · rw [if_neg hpl]
            obtain ⟨htot, hnt1, hnt2, htp, hpos⟩ :=
              draw_reserved_some m rst tid m1 rst1 hdr
            have hcg := nextTileOf_congr m1 m m.turnPlayer hnt1 hnt2
            have hm : draw_measure m = (total_remaining m.remaining).toNat := by
              unfold draw_measure
              rw [hnt]
              simp
            have hm1 : draw_measure m1 =
                (total_remaining m1.remaining).toNat := by
              unfold draw_measure
              rw [htp, hcg, hnt]
              simp
            refine ih m1 rst1 (burned ++ [tid]) (hfields.1.trans hact) ?_
            rw [hm] at hlt
            rw [hm1, htot]
            omega
      · simp only []
        by_cases hpl : has_any_placement eng
            (m.setNextTile m.turnPlayer none).board tid = true
        · rw [if_pos hpl]
          obtain ⟨e1, e2, e3⟩ := ensure_next_preserves
            { m.setNextTile m.turnPlayer none with currentTile := some tid, burnedTurn := burned, turnIntent := none } rst
          left
          refine ⟨⟨tid, e1, ?_⟩, ?_⟩
          · rw [e3]
            exact hpl
          · rw [e2]
            exact ((setNextTile_preserves m m.turnPlayer none).1).trans hact
        · rw [if_neg hpl]
          have hm : draw_measure m =
              (total_remaining m.remaining).toNat + 1 := by
            unfold draw_measure
            rw [hnt]
            simp
          have hm1 : draw_measure (m.setNextTile m.turnPlayer none) =
              (total_remaining m.remaining).toNat := by
            unfold draw_measure
            rw [(setNextTile_fields m m.turnPlayer none).2,
              nextTileOf_setNextTile_none m m.turnPlayer,
              (setNextTile_fields m m.turnPlayer none).1]
            simp
          refine ih (m.setNextTile m.turnPlayer none) rst (burned ++ [tid])
            (((setNextTile_preserves m m.turnPlayer none).1).trans hact) ?_
          rw [hm] at hlt
          rw [hm1]
          omega

theorem finalize_step_scored_skip (mm : Match) (rootGroup : NodeKey × Group)
    (h1 : rootGroup.2.gtype ≠ "field") (h2 : rootGroup.2.complete = true)
    (h3 : rootGroup.2.key ∈ mm.scoredKeys) :
    (let g := rootGroup.2
     let winners := winners_of_group g
     if winners.isEmpty then mm
     else if g.gtype ≠ "field" ∧ g.complete ∧ g.key ∈ mm.scoredKeys then mm
     else
       let pts := score_end_now_value g
       if pts ≤ 0 then mm
       else winners.foldl (fun m2 w => m2.addScore w pts) mm) = mm := by
  simp only []
  split_ifs with hw hs
  · rfl
  · rfl
  all_goals exact absurd ⟨h1, h2, h3⟩ hs

theorem submit_nonactive (eng : Engine) (now : Int) (m : Match) (player : Int)
    (userName : String) (x y rot_deg : Int) (mf : Option String) (rst : RandSt)
    (h : m.status ≠ "active") :
    match_submit_turn_core eng now m player userName x y rot_deg mf rst =
      (m, some "Match is not active.", rst) := by
  unfold match_submit_turn_core
  rw [if_pos h]

theorem finalize_nonactive (eng : Engine) (now : Int) (m : Match)
    (h : m.status ≠ "active") : finalize_match eng now m = m := by
  unfold finalize_match
  rw [if_pos h]

theorem abort_nonactive (now : Int) (m : Match) (reason : String)
    (h : m.status ≠ "active") : abort_match now m reason = m := by
  unfold abort_match
  rw [if_neg h]

theorem intent_frozen (eng : Engine) (m : Match) (userId : String)
    (x y rot_deg : Int) (mf : Option String) (clear locked : Bool) :
    ((match_intent_core eng m userId x y rot_deg mf clear locked).1).score1
      = m.score1 ∧
    ((match_intent_core eng m userId x y rot_deg mf clear locked).1).score2
      = m.score2 ∧
    ((match_intent_core eng m userId x y rot_deg mf clear locked).1).status
      = m.status := by
  unfold match_intent_core set_turn_intent
  simp only []
  repeat' split
  all_goals exact ⟨rfl, rfl, rfl⟩

theorem finished_frozen (eng : Engine) (m0 m : Match)
    (h : m0.status = "finished") (hr : MatchReach eng m0 m) :
    m.score1 = m0.score1 ∧ m.score2 = m0.score2 ∧ m.status = "finished" := by
  induction hr with
  | refl => exact ⟨rfl, rfl, h⟩
  | step mA mB hreach hstep ih =>
      obtain ⟨i1, i2, i3⟩ := ih
      have hna : mA.status ≠ "active" := by
        rw [i3]
        decide
      cases hstep with
      | submit now player x y rot_deg mf userName rs hvalid =>
          rw [submit_nonactive eng now mA player userName x y rot_deg mf
            (rs, true) hna]
          exact ⟨i1, i2, i3⟩
      | resign now reason =>
          rw [abort_nonactive now mA reason hna]
          exact ⟨i1, i2, i3⟩
      | intent userId x y rot_deg mf clear locked =>
          obtain ⟨j1, j2, j3⟩ :=
            intent_frozen eng mA userId x y rot_deg mf clear locked
          exact ⟨j1.trans i1, j2.trans i2, j3.trans i3⟩

def c6wA : Match := { (default : Match) with status := "active" }

def c6wF : Match := { (default : Match) with status := "finished" }

def c6wS : Match :=
  { (default : Match) with scoredKeys := [("road", [((2 : Int), "r")])] }

def c6wG : Group :=
  { gid := ((2 : Int), "r")
    gtype := "road"
    nodes := []
    tiles := []
    meeples1 := 0
    meeples2 := 0
    pennants := 0
    complete := true
    openPorts := []
    adjacentCount := 0
    adjCompletedCities := []
    key := ("road", [((2 : Int), "r")]) }

/-- C6: for an active match the burn loop of
`_draw_placeable_tile_for_match_locked` terminates — the fuel
`draw_measure m + 1` always suffices — in one of exactly two states: a
current tile with at least one legal placement and the match still active,
or supply exhaustion with the match finalized to `finished` and no current
tile; the end-of-match settlement step of `_finalize_match_locked` skips a
complete non-field group whose key is already in the scored set, so no
group is scored a second time; and once a match is finished, no sequence of
subsequent calls — submit, resign/abort, or intent — ever changes either
player's score or the finished status. -/
theorem c6_draw_cycle_terminates :
    (∀ (eng : Engine) (now : Int) (m : Match) (rst : RandSt),
        m.status = "active" →
        DrawOutcome eng (draw_placeable_tile_for_match eng now m rst)) ∧
    (∀ (mm : Match) (rootGroup : NodeKey × Group),
        rootGroup.2.gtype ≠ "field" → rootGroup.2.complete = true →
        rootGroup.2.key ∈ mm.scoredKeys →
        (let g := rootGroup.2
         let winners := winners_of_group g
         if winners.isEmpty then mm
         else if g.gtype ≠ "field" ∧ g.complete ∧ g.key ∈ mm.scoredKeys then mm
         else
           let pts := score_end_now_value g
           if pts ≤ 0 then mm
           else winners.foldl (fun m2 w => m2.addScore w pts) mm) = mm) ∧
    (∀ (eng : Engine) (m0 m : Match), m0.status = "finished" →
        MatchReach eng m0 m →
        m.score1 = m0.score1 ∧ m.score2 = m0.score2 ∧
          m.status = "finished") :=
  ⟨fun eng now m rst hact =>
     draw_aux_dichotomy eng now (draw_measure m + 1) m rst [] hact
       (Nat.lt_succ_self _),
   fun mm rg h1 h2 h3 => finalize_step_scored_skip mm rg h1 h2 h3,
   fun eng m0 m h hr => finished_frozen eng m0 m h hr⟩

theorem c6_draw_cycle_terminates_witness :
    DrawOutcome ceEng (draw_placeable_tile_for_match ceEng 0 c6wA ([], true)) ∧
    (let g := c6wG
     let winners := winners_of_group g
     if winners.isEmpty then c6wS
     else if g.gtype ≠ "field" ∧ g.complete ∧ g.key ∈ c6wS.scoredKeys then c6wS
     else
       let pts := score_end_now_value g
       if pts ≤ 0 then c6wS
       else winners.foldl (fun m2 w => m2.addScore w pts) c6wS) = c6wS ∧
    (c6wF.score1 = c6wF.score1 ∧ c6wF.score2 = c6wF.score2 ∧
      c6wF.status = "finished") :=
  ⟨c6_draw_cycle_terminates.1 ceEng 0 c6wA ([], true) (by decide),
   c6_draw_cycle_terminates.2.1 c6wS (((2 : Int), "r"), c6wG)
     (by decide) (by decide) (by decide),
   c6_draw_cycle_terminates.2.2 ceEng c6wF c6wF (by decide) .refl⟩

theorem char_toNat_inj (a b : Char) (h : a.toNat = b.toNat) : a = b :=
  Char.ext (UInt32.ext h)

theorem charsLt_asymm : ∀ x y : List Char,
    charsLt x y = true → charsLt y x = true → False := by
  intro x
  induction x with
  | nil =>
      intro y h1 h2
      cases y with
      | nil => simp [charsLt] at h1
      | cons b bs => simp [charsLt] at h2
  | cons a as ih =>
      intro y h1 h2
      cases y with
      | nil => simp [charsLt] at h1
      | cons b bs =>
          simp only [charsLt] at h1 h2
          by_cases hab : a.toNat < b.toNat
          · have hba : ¬ b.toNat < a.toNat := by omega
            rw [if_neg hba, if_pos hab] at h2
            cases h2
          · by_cases hba : b.toNat < a.toNat
            · rw [if_neg hab, if_pos hba] at h1
              cases h1
            · rw [if_neg hab, if_neg hba] at h1
              rw [if_neg hba, if_neg hab] at h2
              exact ih bs h1 h2

theorem charsLt_connex : ∀ x y : List Char,
    charsLt x y = false → charsLt y x = true ∨ x = y := by
  intro x
  induction x with
  | nil =>
      intro y h
      cases y with
      | nil => exact Or.inr rfl
      | cons b bs => simp [charsLt] at h
  | cons a as ih =>
      intro y h
      cases y with
      | nil => exact Or.inl rfl
      | cons b bs =>
          simp only [charsLt] at h
          by_cases hab : a.toNat < b.toNat
          · rw [if_pos hab] at h
            cases h
          · by_cases hba : b.toNat < a.toNat
            · left
              simp only [charsLt]
              rw [if_pos hba]
            · rw [if_neg hab, if_neg hba] at h
              rcases ih bs h with h1 | h1
              · left
                simp only [charsLt]
                rw [if_neg hba, if_neg hab]
                exact h1
              · right
                have hc : a = b := char_toNat_inj a b (by omega)
                rw [hc, h1]

theorem charsLt_trans : ∀ x y z : List Char, charsLt x y = true →
    charsLt y z = true → charsLt x z = true := by
  intro x
  induction x with
  | nil =>
      intro y z h1 h2
      cases y with
      | nil => simp [charsLt] at h1
      | cons b bs =>
          cases z with
          | nil => simp [charsLt] at h2
          | cons c cs => rfl
  | cons a as ih =>
      intro y z h1 h2
      cases y with
      | nil => simp [charsLt] at h1
      | cons b bs =>
          cases z with
          | nil => simp [charsLt] at h2
          | cons c cs =>
              simp only [charsLt] at h1 h2 ⊢
              by_cases hab : a.toNat < b.toNat <;>
                by_cases hbc : b.toNat < c.toNat
              · rw [if_pos (show a.toNat < c.toNat by omega)]
              · by_cases hcb : c.toNat < b.toNat
                · rw [if_neg hbc, if_pos hcb] at h2
                  cases h2
                · rw [if_pos (show a.toNat < c.toNat by omega)]
              · by_cases hba : b.toNat < a.toNat
                · rw [if_neg hab, if_pos hba] at h1
                  cases h1
                · rw [if_pos (show a.toNat < c.toNat by omega)]
              · by_cases hba : b.toNat < a.toNat
                · rw [if_neg hab, if_pos hba] at h1
                  cases h1
                · by_cases hcb : c.toNat < b.toNat
                  · rw [if_neg hbc, if_pos hcb] at h2
                    cases h2
                  · rw [if_neg hab, if_neg hba] at h1
                    rw [if_neg hbc, if_neg hcb] at h2
                    rw [if_neg (show ¬ a.toNat < c.toNat by omega),
                      if_neg (show ¬ c.toNat < a.toNat by omega)]
                    exact ih bs cs h1 h2

theorem strLe_total (a b : String) : strLe a b = true ∨ strLe b a = true := by
  unfold strLe
  by_cases h : charsLt a.data b.data = true
  · left
    simp [h]
  · rcases charsLt_connex a.data b.data (by simpa using h) with h1 | h1
    · right
      simp [h1]
    · left
      simp [h1]

theorem strLe_trans (a b c : String) (h1 : strLe a b = true)
    (h2 : strLe b c = true) : strLe a c = true := by
  unfold strLe at h1 h2 ⊢
  simp only [Bool.or_eq_true, decide_eq_true_eq] at h1 h2 ⊢
  rcases h1 with h1 | h1 <;> rcases h2 with h2 | h2
  · exact Or.inl (charsLt_trans _ _ _ h1 h2)
  · left
    rw [← h2]
    exact h1
  · left
    rw [h1]
    exact h2
  · exact Or.inr (h1.trans h2)

theorem strLe_antisymm (a b : String) (h1 : strLe a b = true)
    (h2 : strLe b a = true) : a = b := by
  unfold strLe at h1 h2
  simp only [Bool.or_eq_true, decide_eq_true_eq] at h1 h2
  rcases h1 with h1 | h1
  · rcases h2 with h2 | h2
    · exact (charsLt_asymm _ _ h1 h2).elim
    · exact (String.ext h2).symm
  · exact String.ext h1

theorem nodeLe_total (a b : NodeKey) : nodeLe a b = true ∨ nodeLe b a = true := by
  unfold nodeLe
  simp only [Bool.or_eq_true, Bool.and_eq_true, decide_eq_true_eq]
  by_cases h : a.1 < b.1
  · exact Or.inl (Or.inl h)
  · by_cases h2 : b.1 < a.1
    · exact Or.inr (Or.inl h2)
    · have he : a.1 = b.1 := by omega
      rcases strLe_total a.2 b.2 with hs | hs
      · exact Or.inl (Or.inr ⟨he, hs⟩)
      · exact Or.inr (Or.inr ⟨he.symm, hs⟩)

theorem nodeLe_trans (a b c : NodeKey) (h1 : nodeLe a b = true)
    (h2 : nodeLe b c = true) : nodeLe a c = true := by
  unfold nodeLe at h1 h2 ⊢
  simp only [Bool.or_eq_true, Bool.and_eq_true, decide_eq_true_eq] at h1 h2 ⊢
  rcases h1 with h1 | ⟨h1e, h1s⟩
  · rcases h2 with h2 | ⟨h2e, h2s⟩
    · exact Or.inl (by omega)
    · exact Or.inl (by omega)
  · rcases h2 with h2 | ⟨h2e, h2s⟩
    · exact Or.inl (by omega)
    · exact Or.inr ⟨h1e.trans h2e, strLe_trans _ _ _ h1s h2s⟩

theorem nodeLe_antisymm (a b : NodeKey) (h1 : nodeLe a b = true)
    (h2 : nodeLe b a = true) : a = b := by
  unfold nodeLe at h1 h2
  simp only [Bool.or_eq_true, Bool.and_eq_true, decide_eq_true_eq] at h1 h2
  rcases h1 with h1 | ⟨h1e, h1s⟩
  · rcases h2 with h2 | ⟨h2e, h2s⟩
    · omega
    · omega
  · rcases h2 with h2 | ⟨h2e, h2s⟩
    · omega
    · have hs : a.2 = b.2 := strLe_antisymm _ _ h1s h2s
      exact Prod.ext h1e hs

theorem sortNodes_perm_eq (l1 l2 : List NodeKey) (h : l1.Perm l2) :
    sortNodes l1 = sortNodes l2 := by
  unfold sortNodes
  haveI ht : IsTotal NodeKey (fun a b => nodeLe a b = true) := ⟨nodeLe_total⟩
  haveI htr : IsTrans NodeKey (fun a b => nodeLe a b = true) := ⟨nodeLe_trans⟩
  haveI ha : IsAntisymm NodeKey (fun a b => nodeLe a b = true) :=
    ⟨nodeLe_antisymm⟩
  exact List.eq_of_perm_of_sorted
    ((List.perm_insertionSort _ l1).trans
      (h.trans (List.perm_insertionSort _ l2).symm))
    (List.sorted_insertionSort _ l1) (List.sorted_insertionSort _ l2)

theorem stable_group_key_perm (g1 g2 : Group) (hg : g1.gtype = g2.gtype)
    (hp : g1.nodes.Perm g2.nodes) :
    stable_group_key g1 = stable_group_key g2 := by
  unfold stable_group_key
  rw [hg, sortNodes_perm_eq _ _ hp]

theorem stripTallies_nodes (g w : Group) (h : stripTallies g = stripTallies w) :
    g.nodes = w.nodes :=
  show (stripTallies g).nodes = (stripTallies w).nodes from
    congrArg Group.nodes h

theorem keys_pass_inv (gs : List (NodeKey × Group)) :
    ∀ p ∈ analyze_pass_keys gs, p.2.key = stable_group_key p.2 := by
  intro p hp
  unfold analyze_pass_keys at hp
  obtain ⟨rg, hrg, hpe⟩ := List.mem_map.mp hp
  subst hpe
  rfl

theorem completion_pass_inv (board : Board)
    (nodeMeta : List (NodeKey × NodeMeta)) (perTile : List (Int × PerTile))
    (instById : List (Int × (Int × Int))) (gs : List (NodeKey × Group))
    (h : ∀ p ∈ gs, p.2.key = stable_group_key p.2) :
    ∀ p ∈ analyze_pass_completion board nodeMeta perTile instById gs,
      p.2.key = stable_group_key p.2 := by
  intro p hp
  unfold analyze_pass_completion at hp
  obtain ⟨rg, hrg, hpe⟩ := List.mem_map.mp hp
  subst hpe
  have hq := h rg hrg
  simp only []
  split_ifs
  all_goals try exact hq
  cases htl : rg.2.tiles.head? with
  | none => exact hq
  | some oid =>
      simp only []
      cases hlk : lookupA instById oid with
      | none => exact hq
      | some cell => exact hq

theorem fields_pass_inv (eng : Engine) (board : Board)
    (nodeMeta : List (NodeKey × NodeMeta)) (uf : UnionFind)
    (gs : List (NodeKey × Group))
    (h : ∀ p ∈ gs, p.2.key = stable_group_key p.2) :
    ∀ p ∈ analyze_pass_fields eng board nodeMeta uf gs,
      p.2.key = stable_group_key p.2 := by
  intro p hp
  unfold analyze_pass_fields at hp
  obtain ⟨rg, hrg, hpe⟩ := List.mem_map.mp hp
  subst hpe
  have hq := h rg hrg
  simp only []
  split_ifs with h1
  · exact hq
  · exact hq

theorem meeples_pass_inv (board : Board)
    (nodeMeta : List (NodeKey × NodeMeta)) (uf : UnionFind)
    (gs : List (NodeKey × Group))
    (h : ∀ p ∈ gs, p.2.key = stable_group_key p.2) :
    ∀ p ∈ analyze_pass_meeples board nodeMeta uf gs,
      p.2.key = stable_group_key p.2 := by
  intro p hp
  have hmapeq := pass_meeples_strip board nodeMeta uf gs
  obtain ⟨w, hw, hsw⟩ :=
    mapSnd_mem_transfer stripTallies _ _ hmapeq p.1 p.2 hp
  obtain ⟨hg, hc, hk⟩ := stripTallies_fields p.2 w hsw
  have hn : p.2.nodes = w.nodes := stripTallies_nodes p.2 w hsw
  calc p.2.key = w.key := hk
    _ = stable_group_key w := h (p.1, w) hw
    _ = stable_group_key p.2 := by
        unfold stable_group_key
        rw [hg, hn]

theorem analyze_keys_stable (eng : Engine) (b : Board) :
    ∀ p ∈ (analyze_board eng b).groups, p.2.key = stable_group_key p.2 := by
  unfold analyze_board analyze_base
  simp only []
  exact meeples_pass_inv _ _ _ _
    (fields_pass_inv _ _ _ _ _
      (completion_pass_inv _ _ _ _ _
        (keys_pass_inv _)))

def c8wB : Board :=
  [((0, 0), { instId := 1, tileId := "A", rotDeg := 0, meeples := [] })]

def c8wG1 : Group :=
  { gid := ((1 : Int), "a")
    gtype := "road"
    nodes := [((1 : Int), "a"), ((2 : Int), "b")]
    tiles := []
    meeples1 := 0
    meeples2 := 0
    pennants := 0
    complete := false
    openPorts := []
    adjacentCount := 0
    adjCompletedCities := []
    key := ("", []) }

def c8wG2 : Group :=
  { c8wG1 with nodes := [((2 : Int), "b"), ((1 : Int), "a")] }

/-- C8: the connectivity analyzer is deterministic and idempotent over an
unchanged board: two runs of `analyze_board` on the same board agree on
every group's root node, stable key and completion flag (the embedding is a
pure function of the board, mirroring the source's deterministic dict
iteration); every key it hands out is the stable key
`f"{type}|{'/'.join(sorted(nodes))}"` recomputed from the group's current
member nodes; and the stable key depends only on the set of member nodes —
groups of equal type whose node lists are permutations of each other get
identical keys, so accumulation order cannot change a key. -/
theorem c8_analyzer_deterministic :
    (∀ (eng : Engine) (b : Board) (a1 a2 : Analysis),
        a1 = analyze_board eng b → a2 = analyze_board eng b →
        a1.groups.map (fun p => (p.1, p.2.key, p.2.complete)) =
          a2.groups.map (fun p => (p.1, p.2.key, p.2.complete))) ∧
    (∀ (eng : Engine) (b : Board),
        ∀ p ∈ (analyze_board eng b).groups, p.2.key = stable_group_key p.2) ∧
    (∀ (g1 g2 : Group), g1.gtype = g2.gtype → g1.nodes.Perm g2.nodes →
        stable_group_key g1 = stable_group_key g2) :=
  ⟨fun eng b a1 a2 h1 h2 => by rw [h1, h2],
   fun eng b => analyze_keys_stable eng b,
   fun g1 g2 hg hp => stable_group_key_perm g1 g2 hg hp⟩

theorem c8_analyzer_deterministic_witness :
    ((analyze_board ceEng c8wB).groups.map
        (fun p => (p.1, p.2.key, p.2.complete)) =
      (analyze_board ceEng c8wB).groups.map
        (fun p => (p.1, p.2.key, p.2.complete))) ∧
    (((analyze_board ceEng c8wB).groups.headI).2.key =
      stable_group_key ((analyze_board ceEng c8wB).groups.headI).2) ∧
    stable_group_key c8wG1 = stable_group_key c8wG2 :=
  ⟨c8_analyzer_deterministic.1 ceEng c8wB _ _ rfl rfl,
   c8_analyzer_deterministic.2.1 ceEng c8wB _ (by decide),
   c8_analyzer_deterministic.2.2 c8wG1 c8wG2 (by decide) (by decide)⟩

/-! ## The lobby: users, invites and `MultiplayerState.invite` -/

def SESSION_TIMEOUT_SEC : Int := 60

def INVITE_TIMEOUT_SEC : Int := 120

def MAX_CHAT_MESSAGES : Nat := 160

/-- A lobby user record; `match_id`/`last_match_id` are `None` or a match id. -/
structure User where
  uid : String
  token : String
  name : String
  lastSeen : Int
  matchId : Option String
  lastMatchId : Option String
deriving DecidableEq, Repr, Inhabited

structure Invite where
  iid : String
  fromUserId : String
  toUserId : String
  fromName : String
  toName : String
  status : String
  createdAt : Int
  respondedAt : Option Int
deriving DecidableEq, Repr, Inhabited

/-- The `MultiplayerState` lobby fields the invite flow touches; chat
messages are modelled by their text (ids, clock strings and sender blocks
are presentation data no handler reads back). -/
structure Lobby where
  usersById : List (String × User)
  userByToken : List (String × String)
  invites : List (String × Invite)
  matchesById : List (String × Match)
  chat : List String
  nextInviteId : Int
  nextChatId : Int
deriving DecidableEq, Repr, Inhabited

/-- `MultiplayerState._push_chat_locked`. -/
def push_chat (st : Lobby) (text : String) : Lobby :=
  let msg : String := ⟨text.data.take 240⟩
  let chat1 := st.chat ++ [msg]
  let chat2 :=
    if chat1.length > MAX_CHAT_MESSAGES then
      chat1.drop (chat1.length - MAX_CHAT_MESSAGES)
    else chat1
  { st with chat := chat2, nextChatId := st.nextChatId + 1 }

/-- `MultiplayerState._user_match_status_locked`. -/
def user_match_status (st : Lobby) (user : User) : String :=
  match user.matchId with
  | none => "available"
  | some mid =>
      match lookupA st.matchesById mid with
      | none => "available"
      | some m => if m.status = "active" then "unavailable" else "available"

/-- `MultiplayerState._auth_user_locked`; refreshes `last_seen`. -/
def auth_user (st : Lobby) (now : Int) (token : String) :
    Option User × Lobby :=
  match lookupA st.userByToken token with
  | none => (none, st)
  | some uid =>
      match lookupA st.usersById uid with
      | none => (none, { st with userByToken := eraseA st.userByToken token })
      | some user =>
          let user2 := { user with lastSeen := now }
          (some user2, { st with usersById := upsertA st.usersById uid user2 })

/-- The player-detach loop body of `_abort_match_locked`. -/
def detach_player (mid : String) (st2 : Lobby) (uid : String) : Lobby :=
  match lookupA st2.usersById uid with
  | none => st2
  | some u =>
      if u.matchId = some mid then
        let u2 := { u with matchId := none, lastMatchId := some mid }
        { st2 with usersById := upsertA st2.usersById uid u2 }
      else st2

/-- `MultiplayerState._abort_match_locked`: abort the match record if it is
active, then detach both players. -/
def abort_match_lobby (st : Lobby) (now : Int) (mid : String)
    (reason : String) : Lobby :=
  match lookupA st.matchesById mid with
  | none => st
  | some m =>
      let st1 := { st with matchesById := upsertA st.matchesById mid (abort_match now m reason) }
      detach_player mid (detach_player mid st1 m.player1) m.player2

/-- The invite-expiry step of `_remove_user_locked`: a pending invite that
involves the removed user becomes expired. -/
def expire_involving (now : Int) (uid : String) (kv : String × Invite) :
    String × Invite :=
  if kv.2.status = "pending" ∧
      (kv.2.fromUserId = uid ∨ kv.2.toUserId = uid) then
    (kv.1, { kv.2 with status := "expired", respondedAt := some now })
  else kv

/-- `MultiplayerState._remove_user_locked`. -/
def remove_user (st : Lobby) (now : Int) (uid : String) (timeout : Bool) :
    Lobby :=
  match lookupA st.usersById uid with
  | none => st
  | some user =>
      let st1 := { st with usersById := eraseA st.usersById uid }
      let st2 :=
        if user.token ≠ "" then
          { st1 with userByToken := eraseA st1.userByToken user.token }
        else st1
      let st3 := { st2 with invites := st2.invites.map (expire_involving now uid) }
      let st4 :=
        match user.matchId with
        | none => st3
        | some mid => abort_match_lobby st3 now mid (user.name ++ " disconnected.")
      if timeout then push_chat st4 (user.name ++ " disconnected.")
      else push_chat st4 (user.name ++ " left the lobby.")

/-- The invite-timeout step of `_cleanup_locked`: a pending invite older
than `INVITE_TIMEOUT_SEC` becomes expired. -/
def expire_old (now : Int) (kv : String × Invite) : String × Invite :=
  if kv.2.status = "pending" ∧ now - kv.2.createdAt > INVITE_TIMEOUT_SEC then
    (kv.1, { kv.2 with status := "expired", respondedAt := some now })
  else kv

/-- `MultiplayerState._cleanup_locked`: drop stale sessions, then expire
pending invites older than `INVITE_TIMEOUT_SEC`. -/
def cleanup (st : Lobby) (now : Int) : Lobby :=
  let stale := (st.usersById.filter
    (fun kv => decide (now - kv.2.lastSeen > SESSION_TIMEOUT_SEC))).map Prod.fst
  let st1 := stale.foldl (fun s uid => remove_user s now uid true) st
  { st1 with invites := st1.invites.map (expire_old now) }

/-- The duplicate-invite test of the scan in `MultiplayerState.invite`:
`{inv.from_user_id, inv.to_user_id} == {user.id, to_user_id}` on a pending
invite, spelled out for the two orientations (the caller and target ids are
distinct when the scan runs, so set equality is exactly this disjunction). -/
def pairPendingP (a b : String) (kv : String × Invite) : Bool :=
  kv.2.status == "pending" &&
    ((kv.2.fromUserId == a && kv.2.toUserId == b) ||
     (kv.2.fromUserId == b && kv.2.toUserId == a))

/-- `MultiplayerState.invite`. -/
def invite_op (st : Lobby) (now : Int) (token : String) (to_user_id : String) :
    Lobby × Option String :=
  let st0 := cleanup st now
  match auth_user st0 now token with
  | (none, st1) => (st1, some "Invalid session token.")
  | (some user, st1) =>
      if user_match_status st1 user ≠ "available" then
        (st1, some "You are currently unavailable.")
      else if to_user_id = user.uid then
        (st1, some "Cannot invite yourself.")
      else
        match lookupA st1.usersById to_user_id with
        | none => (st1, some "User not found.")
        | some other =>
            if user_match_status st1 other ≠ "available" then
              (st1, some "That player is unavailable.")
            else if st1.invites.any (pairPendingP user.uid to_user_id) then
              (st1, some "There is already a pending invite between these players.")
            else
              let iid := "i" ++ toString st1.nextInviteId
              let inv : Invite :=
                { iid := iid, fromUserId := user.uid, toUserId := to_user_id,
                  fromName := user.name, toName := other.name,
                  status := "pending", createdAt := now, respondedAt := none }
              let st2 := { st1 with invites := upsertA st1.invites iid inv, nextInviteId := st1.nextInviteId + 1 }
              (push_chat st2 (user.name ++ " invited " ++ other.name ++ "."),
               none)

def c9U1 : User :=
  { uid := "u1", token := "t1", name := "Alice", lastSeen := 118,
    matchId := none, lastMatchId := none }

def c9U2 : User :=
  { uid := "u2", token := "t2", name := "Bob", lastSeen := 118,
    matchId := none, lastMatchId := none }

def c9Inv : Invite :=
  { iid := "i1", fromUserId := "u1", toUserId := "u2", fromName := "Alice",
    toName := "Bob", status := "pending", createdAt := 0, respondedAt := none }

/-- A lobby at `now = 125`: both users heartbeated at 118 (so their sessions
are fresh), but the pending invite between them was created at 0 and has
aged past `INVITE_TIMEOUT_SEC`. -/
def c9St : Lobby :=
  { usersById := [("u1", c9U1), ("u2", c9U2)]
    userByToken := [("t1", "u1"), ("t2", "u2")]
    invites := [("i1", c9Inv)]
    matchesById := []
    chat := []
    nextInviteId := 2
    nextChatId := 1 }

/-- C9 counterexample: a pending invite from u1 to u2 exists, yet a second
`invite` call from u1 to u2 succeeds (no error) and creates a fresh invite
"i2": the cleanup pass at the start of the call expires the aged pending
invite, so the duplicate scan no longer sees it. -/
theorem c9_counterexample_second_invite_succeeds :
    lookupA c9St.invites "i1" = some c9Inv ∧ c9Inv.status = "pending" ∧
    c9Inv.fromUserId = "u1" ∧ c9Inv.toUserId = "u2" ∧
    (invite_op c9St 125 "t1" "u2").2 = none ∧
    (lookupA (invite_op c9St 125 "t1" "u2").1.invites "i2").isSome = true := by
  decide

theorem lookupA_mem [DecidableEq α] (l : List (α × β)) (k : α) (v : β)
    (h : lookupA l k = some v) : (k, v) ∈ l := by
  induction l with
  | nil => simp [lookupA] at h
  | cons hd tl ih =>
      unfold lookupA at h
      split_ifs at h with hk
      · cases h
        rw [← hk]
        exact List.mem_cons_self _ _
      · exact List.mem_cons_of_mem _ (ih h)

theorem push_chat_fields (st : Lobby) (t : String) :
    (push_chat st t).invites = st.invites ∧
    (push_chat st t).nextInviteId = st.nextInviteId :=
  ⟨rfl, rfl⟩

theorem detach_player_fields (mid : String) (st : Lobby) (uid : String) :
    (detach_player mid st uid).invites = st.invites ∧
    (detach_player mid st uid).nextInviteId = st.nextInviteId := by
  unfold detach_player
  split
  · exact ⟨rfl, rfl⟩
  · split_ifs <;> exact ⟨rfl, rfl⟩

theorem abort_lobby_fields (st : Lobby) (now : Int) (mid reason : String) :
    (abort_match_lobby st now mid reason).invites = st.invites ∧
    (abort_match_lobby st now mid reason).nextInviteId = st.nextInviteId := by
  unfold abort_match_lobby
  split
  · exact ⟨rfl, rfl⟩
  · simp only []
    refine ⟨?_, ?_⟩
    · rw [(detach_player_fields _ _ _).1, (detach_player_fields _ _ _).1]
    · rw [(detach_player_fields _ _ _).2, (detach_player_fields _ _ _).2]

theorem auth_user_state (st : Lobby) (now : Int) (token : String) :
    (auth_user st now token).2.invites = st.invites ∧
    (auth_user st now token).2.nextInviteId = st.nextInviteId := by
  unfold auth_user
  simp only []
  split
  · exact ⟨rfl, rfl⟩
  · split
    · exact ⟨rfl, rfl⟩
    · exact ⟨rfl, rfl⟩

theorem remove_user_invites (st : Lobby) (now : Int) (uid : String)
    (tb : Bool) :
    (remove_user st now uid tb).invites = st.invites ∨
    (remove_user st now uid tb).invites =
      st.invites.map (expire_involving now uid) := by
  unfold remove_user
  split
  · exact Or.inl rfl
  · right
    simp only []
    split
    · rw [(push_chat_fields _ _).1]
      split
      · split_ifs <;> rfl
      · rw [(abort_lobby_fields _ _ _ _).1]
        split_ifs <;> rfl
    · rw [(push_chat_fields _ _).1]
      split
      · split_ifs <;> rfl
      · rw [(abort_lobby_fields _ _ _ _).1]
        split_ifs <;> rfl

theorem remove_user_next (st : Lobby) (now : Int) (uid : String) (tb : Bool) :
    (remove_user st now uid tb).nextInviteId = st.nextInviteId := by
  unfold remove_user
  split
  · rfl
  · simp only []
    split
    · rw [(push_chat_fields _ _).2]
      split
      · split_ifs <;> rfl
      · rw [(abort_lobby_fields _ _ _ _).2]
        split_ifs <;> rfl
    · rw [(push_chat_fields _ _).2]
      split
      · split_ifs <;> rfl
      · rw [(abort_lobby_fields _ _ _ _).2]
        split_ifs <;> rfl

theorem filter_pending_map_le (l : List (String × Invite))
    (f : (String × Invite) → (String × Invite))
    (hf : ∀ kv, f kv = kv ∨ (f kv).2.status = "expired")
    (P : (String × Invite) → Bool)
    (hP : ∀ kv, P kv = true → kv.2.status = "pending") :
    ((l.map f).filter P).length ≤ (l.filter P).length := by
  induction l with
  | nil => simp
  | cons kv tl ih =>
      simp only [List.map_cons, List.filter_cons]
      rcases hf kv with h | h
      · rw [h]
        by_cases hpkv : P kv = true
        · rw [if_pos hpkv, if_pos hpkv]
          simpa using ih
        · rw [if_neg hpkv, if_neg hpkv]
          exact ih
      · have hpf : ¬ P (f kv) = true := by
          intro hq
          exact absurd ((hP (f kv) hq).symm.trans h) (by decide)
        rw [if_neg hpf]
        by_cases hpkv : P kv = true
        · rw [if_pos hpkv]
          exact le_trans ih (Nat.le_succ _)
        · rw [if_neg hpkv]
          exact ih

theorem expire_involving_spec (now : Int) (uid : String)
    (kv : String × Invite) :
    expire_involving now uid kv = kv ∨
    (expire_involving now uid kv).2.status = "expired" := by
  unfold expire_involving
  split_ifs
  · right
    rfl
  · left
    rfl

theorem expire_old_spec (now : Int) (kv : String × Invite) :
    expire_old now kv = kv ∨ (expire_old now kv).2.status = "expired" := by
  unfold expire_old
  split_ifs
  · right
    rfl
  · left
    rfl

theorem pending_le_remove (st : Lobby) (now : Int) (uid : String) (tb : Bool)
    (P : (String × Invite) → Bool)
    (hP : ∀ kv, P kv = true → kv.2.status = "pending") :
    (((remove_user st now uid tb).invites).filter P).length ≤
      ((st.invites).filter P).length := by
  rcases remove_user_invites st now uid tb with h | h
  · rw [h]
  · rw [h]
    exact filter_pending_map_le _ _ (expire_involving_spec now uid) P hP

theorem pending_le_fold (now : Int) (U : List String) :
    ∀ (st : Lobby) (P : (String × Invite) → Bool),
      (∀ kv, P kv = true → kv.2.status = "pending") →
      (((U.foldl (fun s uid => remove_user s now uid true) st).invites).filter
        P).length ≤ ((st.invites).filter P).length := by
  induction U with
  | nil => intro st P hP; exact le_refl _
  | cons u U ih =>
      intro st P hP
      simp only [List.foldl_cons]
      exact le_trans (ih _ P hP) (pending_le_remove st now u true P hP)

theorem pending_le_cleanup (st : Lobby) (now : Int)
    (P : (String × Invite) → Bool)
    (hP : ∀ kv, P kv = true → kv.2.status = "pending") :
    (((cleanup st now).invites).filter P).length ≤
      ((st.invites).filter P).length := by
  unfold cleanup
  simp only []
  exact le_trans
    (filter_pending_map_le _ _ (expire_old_spec now) P hP)
    (pending_le_fold now _ st P hP)

theorem cleanup_next (st : Lobby) (now : Int) :
    (cleanup st now).nextInviteId = st.nextInviteId := by
  unfold cleanup
  simp only []
  generalize ((st.usersById.filter
    (fun kv => decide (now - kv.2.lastSeen > SESSION_TIMEOUT_SEC))).map
      Prod.fst) = U
  induction U generalizing st with
  | nil => rfl
  | cons u U ih =>
      simp only [List.foldl_cons]
      rw [ih (remove_user st now u true), remove_user_next]

theorem upsert_filter_le [DecidableEq α] (l : List (α × β)) (k : α) (v : β)
    (P : (α × β) → Bool) :
    ((upsertA l k v).filter P).length ≤
      (l.filter P).length + (if P (k, v) = true then 1 else 0) := by
  by_cases h1 : P (k, v) = true
  · rw [if_pos h1]
    induction l with
    | nil => simp [upsertA, h1]
    | cons hd tl ih =>
        obtain ⟨k1, v1⟩ := hd
        unfold upsertA
        split_ifs with hk
        · simp only [List.filter_cons]
          rw [if_pos h1]
          by_cases h2 : P (k1, v1) = true
          · rw [if_pos h2]
            simp only [List.length_cons]
            omega
          · rw [if_neg h2]
            simp only [List.length_cons]
            omega
        · simp only [List.filter_cons]
          by_cases h2 : P (k1, v1) = true
          · rw [if_pos h2, if_pos h2]
            simp only [List.length_cons]
            omega
          · rw [if_neg h2, if_neg h2]
            omega
  · rw [if_neg h1]
    induction l with
    | nil => simp [upsertA, h1]
    | cons hd tl ih =>
        obtain ⟨k1, v1⟩ := hd
        unfold upsertA
        split_ifs with hk
        · simp only [List.filter_cons]
          rw [if_neg h1]
          by_cases h2 : P (k1, v1) = true
          · rw [if_pos h2]
            simp only [List.length_cons]
            omega
          · rw [if_neg h2]
            omega
        · simp only [List.filter_cons]
          by_cases h2 : P (k1, v1) = true
          · rw [if_pos h2, if_pos h2]
            simp only [List.length_cons]
            omega
          · rw [if_neg h2, if_neg h2]
            omega

theorem filter_len_zero (l : List (String × Invite))
    (P : (String × Invite) → Bool) (h : ∀ kv ∈ l, ¬ P kv = true) :
    (l.filter P).length = 0 := by
  induction l with
  | nil => rfl
  | cons kv tl ih =>
      simp only [List.filter_cons]
      rw [if_neg (h kv (List.mem_cons_self _ _))]
      exact ih fun x hx => h x (List.mem_cons_of_mem _ hx)

theorem pairPendingP_symm (a b : String) (kv : String × Invite) :
    pairPendingP a b kv = pairPendingP b a kv := by
  unfold pairPendingP
  rw [Bool.or_comm]

theorem pairPendingP_pending (a b : String) (kv : String × Invite)
    (h : pairPendingP a b kv = true) : kv.2.status = "pending" := by
  unfold pairPendingP at h
  simp only [Bool.and_eq_true, beq_iff_eq] at h
  exact h.1

/-- At most one pending invite per unordered pair of user ids. -/
def AtMostOnePending (st : Lobby) : Prop :=
  ∀ a b : String, ((st.invites).filter (pairPendingP a b)).length ≤ 1

theorem invite_op_invariant (st : Lobby) (now : Int) (token to_user_id : String)
    (h : AtMostOnePending st) :
    AtMostOnePending (invite_op st now token to_user_id).1 := by
  intro a b
  unfold invite_op
  simp only []
  rcases hau : auth_user (cleanup st now) now token with ⟨uo, st1⟩
  have hinv1 : st1.invites = (cleanup st now).invites := by
    have hh := (auth_user_state (cleanup st now) now token).1
    rw [hau] at hh
    exact hh
  have hbase : ((st1.invites).filter (pairPendingP a b)).length ≤ 1 := by
    rw [hinv1]
    exact le_trans (pending_le_cleanup st now _ (pairPendingP_pending a b))
      (h a b)
  rcases uo with _ | user
  · exact hbase
  · simp only []
    by_cases h1 : user_match_status st1 user ≠ "available"
    · rw [if_pos h1]
      exact hbase
    rw [if_neg h1]
    by_cases h2 : to_user_id = user.uid
    · rw [if_pos h2]
      exact hbase
    rw [if_neg h2]
    cases hlk : lookupA st1.usersById to_user_id with
    | none => exact hbase
    | some other =>
        simp only []
        by_cases h3 : user_match_status st1 other ≠ "available"
        · rw [if_pos h3]
          exact hbase
        rw [if_neg h3]
        by_cases h4 : st1.invites.any (pairPendingP user.uid to_user_id) = true
        · rw [if_pos h4]
          exact hbase
        rw [if_neg h4]
        simp only []
        rw [(push_chat_fields _ _).1]
        have hall : ∀ kv ∈ st1.invites,
            ¬ pairPendingP user.uid to_user_id kv = true := by
          intro kv hkv hq
          exact h4 (List.any_eq_true.mpr ⟨kv, hkv, hq⟩)
        refine le_trans (upsert_filter_le _ _ _ _) ?_
        split_ifs with hnew
        · simp only [pairPendingP, Bool.and_eq_true, Bool.or_eq_true,
            beq_iff_eq] at hnew
          rcases hnew.2 with ⟨hA, hB⟩ | ⟨hA, hB⟩
          · subst hA
            subst hB
            rw [filter_len_zero _ _ hall]
          · subst hA
            subst hB
            rw [filter_len_zero _ _ (fun kv hkv hq =>
              hall kv hkv (by rw [pairPendingP_symm] at hq; exact hq))]
        · have hb2 := hbase
          omega

theorem invite_second_errors (st : Lobby) (now : Int)
    (token to_user_id k : String) (inv : Invite) (u : User)
    (hclean : cleanup st now = st)
    (hk : lookupA st.invites k = some inv)
    (hpend : inv.status = "pending")
    (hauth : (auth_user st now token).1 = some u)
    (hpair : (inv.fromUserId = u.uid ∧ inv.toUserId = to_user_id) ∨
             (inv.fromUserId = to_user_id ∧ inv.toUserId = u.uid)) :
    (invite_op st now token to_user_id).2.isSome = true ∧
    (invite_op st now token to_user_id).1.nextInviteId = st.nextInviteId := by
  unfold invite_op
  simp only []
  rw [hclean]
  rcases hau : auth_user st now token with ⟨uo, st1⟩
  have hst1inv : st1.invites = st.invites := by
    have hh := (auth_user_state st now token).1
    rw [hau] at hh
    exact hh
  have hst1next : st1.nextInviteId = st.nextInviteId := by
    have hh := (auth_user_state st now token).2
    rw [hau] at hh
    exact hh
  rw [hau] at hauth
  have huo : uo = some u := hauth
  subst huo
  simp only []
  by_cases h1 : user_match_status st1 u ≠ "available"
  · rw [if_pos h1]
    exact ⟨rfl, hst1next⟩
  rw [if_neg h1]
  by_cases h2 : to_user_id = u.uid
  · rw [if_pos h2]
    exact ⟨rfl, hst1next⟩
  rw [if_neg h2]
  cases hlk : lookupA st1.usersById to_user_id with
  | none => exact ⟨rfl, hst1next⟩
  | some other =>
      simp only []
      by_cases h3 : user_match_status st1 other ≠ "available"
      · rw [if_pos h3]
        exact ⟨rfl, hst1next⟩
      rw [if_neg h3]
      have hmem : (k, inv) ∈ st1.invites := by
        rw [hst1inv]
        exact lookupA_mem _ _ _ hk
      have hpp : pairPendingP u.uid to_user_id (k, inv) = true := by
        unfold pairPendingP
        simp only [Bool.and_eq_true, Bool.or_eq_true, beq_iff_eq]
        refine ⟨hpend, ?_⟩
        rcases hpair with ⟨x, y⟩ | ⟨x, y⟩
        · exact Or.inl ⟨x, y⟩
        · exact Or.inr ⟨x, y⟩
      rw [if_pos (List.any_eq_true.mpr ⟨(k, inv), hmem, hpp⟩)]
      exact ⟨rfl, hst1next⟩

def c9FU1 : User :=
  { uid := "u1", token := "t1", name := "Alice", lastSeen := 200,
    matchId := none, lastMatchId := none }

def c9FU2 : User :=
  { uid := "u2", token := "t2", name := "Bob", lastSeen := 200,
    matchId := none, lastMatchId := none }

def c9FInv : Invite :=
  { iid := "i1", fromUserId := "u1", toUserId := "u2", fromName := "Alice",
    toName := "Bob", status := "pending", createdAt := 200,
    respondedAt := none }

/-- A fresh lobby at `now = 200`: sessions and the pending invite were all
touched at 200, so the cleanup pass is the identity. -/
def c9Fresh : Lobby :=
  { usersById := [("u1", c9FU1), ("u2", c9FU2)]
    userByToken := [("t1", "u1"), ("t2", "u2")]
    invites := [("i1", c9FInv)]
    matchesById := []
    chat := []
    nextInviteId := 2
    nextChatId := 1 }

/-- C9 (amended): in a lobby that the cleanup pass leaves unchanged — no
stale session and no aged invite — a second `invite` call between the two
ends of a standing pending invite, in either direction, returns an error
and mints no new invite id; and every `invite` call, on any lobby,
preserves the at-most-one-pending-invite-per-unordered-pair bound. -/
theorem c9_amended_second_invite_rejected :
    (∀ (st : Lobby) (now : Int) (token to_user_id k : String) (inv : Invite)
        (u : User),
        cleanup st now = st →
        lookupA st.invites k = some inv →
        inv.status = "pending" →
        (auth_user st now token).1 = some u →
        ((inv.fromUserId = u.uid ∧ inv.toUserId = to_user_id) ∨
         (inv.fromUserId = to_user_id ∧ inv.toUserId = u.uid)) →
        (invite_op st now token to_user_id).2.isSome = true ∧
        (invite_op st now token to_user_id).1.nextInviteId =
          st.nextInviteId) ∧
    (∀ (st : Lobby) (now : Int) (token to_user_id : String),
        AtMostOnePending st →
        AtMostOnePending (invite_op st now token to_user_id).1) :=
  ⟨fun st now token tu k inv u hc hk hp ha hpr =>
     invite_second_errors st now token tu k inv u hc hk hp ha hpr,
   fun st now token tu h => invite_op_invariant st now token tu h⟩

theorem c9_amended_second_invite_rejected_witness :
    (invite_op c9Fresh 200 "t1" "u2").2.isSome = true ∧
    (invite_op c9Fresh 200 "t1" "u2").1.nextInviteId =
      c9Fresh.nextInviteId ∧
    ((invite_op c9Fresh 200 "t1" "u2").1.invites.filter
        (pairPendingP "u1" "u2")).length ≤ 1 :=
  ⟨(c9_amended_second_invite_rejected.1 c9Fresh 200 "t1" "u2" "i1" c9FInv
      c9FU1 (by decide) (by decide) (by decide) (by decide) (by decide)).1,
   (c9_amended_second_invite_rejected.1 c9Fresh 200 "t1" "u2" "i1" c9FInv
      c9FU1 (by decide) (by decide) (by decide) (by decide) (by decide)).2,
   c9_amended_second_invite_rejected.2 c9Fresh 200 "t1" "u2"
     (fun a b => List.length_filter_le _ _) "u1" "u2"⟩
